import Mathlib

/-!
Verification development for the youtube-summarizer backend
(src/server.js and src/summarize-function.js).

The JavaScript source is shallowly embedded: strings are modelled as
Lean strings (lists of characters), the regular expressions of the
source are modelled by explicit backtracking scanners that mirror the
semantics of the concrete JS regex literals, and the network effects
(metadata fetch, transcript fetch, model generation, clock, locale
formatting) are passed to the request handler as explicit arguments.
-/

namespace YTSum

/-- JS line terminators (the characters regex `.` does not match and
that `^`/`$` with the `m` flag treat as line boundaries). -/
def isLineTerm (c : Char) : Bool :=
  c = '\n' || c = '\r' || c = ' ' || c = ' '

/-- JS whitespace class `\s` (also the set trimmed by `String.prototype.trim`). -/
def isJsWs (c : Char) : Bool :=
  c = ' ' || c = '\t' || c = '\n' || c = '\r' || c = '\x0b' || c = '\x0c' ||
  c = ' ' || c = ' ' || (0x2000 ≤ c.toNat && c.toNat ≤ 0x200a) ||
  c = ' ' || c = ' ' || c = ' ' || c = ' ' ||
  c = '　' || c = '﻿'

/-- JS word-character class `\w`, namely ASCII letters, digits and underscore. -/
def isWordChar (c : Char) : Bool :=
  ('a' ≤ c && c ≤ 'z') || ('A' ≤ c && c ≤ 'Z') || c.isDigit || c = '_'

/-- The delimiters of the capture group in the video-id regex: the
negated class in the source pattern is written `[^#&?]*`. -/
def isDelim (c : Char) : Bool :=
  c = '#' || c = '&' || c = '?'

/-- JS `trim`: remove leading and trailing JS whitespace. -/
def trimList (l : List Char) : List Char :=
  ((l.dropWhile isJsWs).reverse.dropWhile isJsWs).reverse

/-!
## URL parser (`extractVideoId`, identical in src/server.js lines 20-24
and src/summarize-function.js lines 8-12)

The source matches the url against
` ^.*(youtu.be\/|v\/|u\/\w\/|embed\/|watch\?v=|&v=)([^#&?]*).* `
and returns the second capture when its length is exactly 11, else null.
The leading greedy wildcard run means the alternation is matched at the
RIGHTMOST possible position; since JS `.` does not cross line
terminators, only positions whose prefix is free of line terminators
are reachable.  `tryAlt` decides whether one of the six alternatives
matches at the head of a list (first-in-order wins; the six
alternatives start with pairwise distinct characters) and returns the
number of characters it consumes. -/

def tryAlt (l : List Char) : Option Nat :=
  if l.take 5 = ['y', 'o', 'u', 't', 'u'] ∧ (l.drop 6).take 3 = ['b', 'e', '/'] ∧
      9 ≤ l.length ∧ isLineTerm (l.getD 5 ' ') = false then some 9
  else if l.take 2 = ['v', '/'] then some 2
  else if l.take 2 = ['u', '/'] ∧ (l.drop 3).take 1 = ['/'] ∧
      isWordChar (l.getD 2 ' ') = true then some 4
  else if l.take 6 = ['e', 'm', 'b', 'e', 'd', '/'] then some 6
  else if l.take 8 = ['w', 'a', 't', 'c', 'h', '?', 'v', '='] then some 8
  else if l.take 3 = ['&', 'v', '='] then some 3
  else none

/-- Backtracking search for the rightmost reachable position at which an
alternative of the video-id regex matches; returns the remainder of the
input after the matched alternative (the text seen by the capture
group).  A line terminator cuts the search: positions at or after it
are not reachable by the anchored greedy prefix `^.*`. -/
def scanAux (l : List Char) : Option (List Char) :=
  match l with
  | [] => none
  | c :: rest =>
    if isLineTerm c then none
    else
      match scanAux rest with
      | some r => some r
      | none =>
        match tryAlt (c :: rest) with
        | some n => some ((c :: rest).drop n)
        | none => none

/-- `extractVideoId` from the source: capture group two is the longest
delimiter-free prefix of the remainder; the id is produced only when
that capture has exactly 11 characters. -/
def extractVideoId (url : String) : Option String :=
  match scanAux url.data with
  | none => none
  | some r =>
    let tok := r.takeWhile (fun c => !isDelim c)
    if tok.length = 11 then some (String.mk tok) else none

/-- A string contains one of the recognized URL shapes somewhere. -/
def containsShape (l : List Char) : Bool :=
  l.tails.any (fun t => (tryAlt t).isSome)

/-!
## Duration formatter (src/summarize-function.js lines 66-81)

`formatDuration` returns "Unknown" for a falsy argument (null /
undefined / empty string), otherwise matches the unanchored regex
`PT(\d+H)?(\d+M)?(\d+S)?` — which succeeds exactly when "PT" occurs as
a substring, all groups being optional — and assembles the readable
form, falling back to the input when the assembled text trims to
nothing. -/

/-- Find the first occurrence of the literal "PT" and return the text
after it (the position where the optional groups of the regex start). -/
def findPT (l : List Char) : Option (List Char) :=
  match l with
  | 'P' :: 'T' :: rest => some rest
  | _ :: rest => findPT rest
  | [] => none

/-- Match the optional regex group `(\d+X)?` at the head of the list for
the given marker character X: a nonempty digit run immediately followed
by the marker.  Returns the digits and the rest on success. -/
def numSuffix (mark : Char) (l : List Char) : Option (List Char × List Char) :=
  let ds := l.takeWhile Char.isDigit
  if ds = [] then none
  else
    match l.dropWhile Char.isDigit with
    | c :: r => if c = mark then some (ds, r) else none
    | [] => none

def formatDuration (duration : Option String) : String :=
  match duration with
  | none => "Unknown"
  | some d =>
    if d = "" then "Unknown"
    else
      match findPT d.data with
      | none => d
      | some rest =>
        let p1 := match numSuffix 'H' rest with
          | some (ds, r) => (ds, r)
          | none => ([], rest)
        let p2 := match numSuffix 'M' p1.2 with
          | some (ds, r) => (ds, r)
          | none => ([], p1.2)
        let p3 := match numSuffix 'S' p2.2 with
          | some (ds, r) => (ds, r)
          | none => ([], p2.2)
        let res :=
          (if p1.1 = [] then [] else p1.1 ++ ['h', ' ']) ++
          (if p2.1 = [] then [] else p2.1 ++ ['m', ' ']) ++
          (if p3.1 = [] then [] else p3.1 ++ ['s'])
        let res := trimList res
        if res = [] then d else String.mk res

/-!
## Formatting cleanup (src/summarize-function.js lines 84-91)

The source applies, in order:
  1. `.replace(/\*\*\*\*/g, '**')`
  2. `.replace(/(\d+)\.\s*/g, '\n\n**$1.** ')`
  3. `.replace(/\n{3,}/g, '\n\n')`
  4. `.replace(/^(.+):$/gm, '**$1:**')`
  5. `.trim()`
Each global replace scans left to right without rescanning its own
replacements; rule 2 matches a maximal digit run followed by a period
anywhere in the text (the pattern is not anchored to line starts), and
rule 4 works per line, a line being delimited by JS line terminators.
-/

/-- Rule 1: collapse each occurrence of four consecutive asterisks into
two.  The global replace scans left to right without rescanning its own
replacement, so four matched asterisks emit two and scanning resumes
after them. -/
def fixQuadAst : List Char → List Char
  | '*' :: '*' :: '*' :: '*' :: rest => '*' :: '*' :: fixQuadAst rest
  | c :: rest => c :: fixQuadAst rest
  | [] => []

/-- Rule 2, as a single left-to-right scan.  `run` holds the digits of
the maximal digit run currently being read, in reverse; `skipWs` is set
right after a replacement has been emitted, while the `\s*` tail of the
match is still being consumed.  A run followed by a period is emitted as
the bold numbered marker `\n\n**run.** `; a run not followed by a period
is emitted unchanged (no match can start inside it, since every proper
suffix of the run is followed by a digit). -/
def fmtNumAux (run : List Char) (skipWs : Bool) : List Char → List Char
  | [] => run.reverse
  | c :: rest =>
    if skipWs then
      (if isJsWs c then fmtNumAux [] true rest
       else if c.isDigit then fmtNumAux [c] false rest
       else c :: fmtNumAux [] false rest)
    else if c.isDigit then fmtNumAux (c :: run) false rest
    else if c = '.' ∧ run ≠ [] then
      ('\n' :: '\n' :: '*' :: '*' :: run.reverse) ++ ('.' :: '*' :: '*' :: ' ' :: []) ++
        fmtNumAux [] true rest
    else run.reverse ++ c :: fmtNumAux [] false rest

/-- Rule 2: rewrite each maximal digit run followed by a period (and any
trailing JS whitespace) into a bold numbered marker preceded by a blank
line. -/
def formatNumbered (l : List Char) : List Char :=
  fmtNumAux [] false l

/-- Rule 3, as a single left-to-right scan counting the current run of
newlines: a maximal run of k newlines is emitted as min k 2 newlines,
which is the effect of replacing every run of three or more by exactly
two and leaving shorter runs alone. -/
def cleanNlAux (n : Nat) : List Char → List Char
  | [] => List.replicate (min n 2) '\n'
  | c :: rest =>
    if c = '\n' then cleanNlAux (n + 1) rest
    else List.replicate (min n 2) '\n' ++ c :: cleanNlAux 0 rest

/-- Rule 3: collapse each maximal run of three or more newlines into two. -/
def cleanNewlines (l : List Char) : List Char :=
  cleanNlAux 0 l

/-- Rule 4, per line: a line of the form `text:` (with nonempty text)
becomes `**text:**`; other lines are unchanged. -/
def boldHeaderLine (l : List Char) : List Char :=
  match l.reverse with
  | [] => l
  | [_] => l
  | b :: c :: cs => if b = ':' then ('*' :: '*' :: (c :: cs).reverse) ++ [':', '*', '*'] else l

/-- Rule 4, as a single scan accumulating the current line in reverse in
`acc` and bolding each completed line; the line terminator characters
between lines are preserved. -/
def mbhAux (acc : List Char) : List Char → List Char
  | [] => boldHeaderLine acc.reverse
  | c :: rest =>
    if isLineTerm c then boldHeaderLine acc.reverse ++ c :: mbhAux [] rest
    else mbhAux (c :: acc) rest

/-- Rule 4: apply `boldHeaderLine` to every line. -/
def makeBoldHeaders (l : List Char) : List Char :=
  mbhAux [] l

/-- `cleanFormatting` from the source: the five rules in order. -/
def cleanFormatting (text : String) : String :=
  String.mk (trimList (makeBoldHeaders (cleanNewlines (formatNumbered (fixQuadAst text.data)))))

/-- A run of four consecutive asterisks occurs somewhere. -/
def hasQuadAst (l : List Char) : Bool :=
  match l with
  | [] => false
  | c :: rest => (decide (c = '*' ∧ rest.take 3 = ['*', '*', '*'])) || hasQuadAst rest

/-- A run of three consecutive newlines occurs somewhere. -/
def hasTripleNl (l : List Char) : Bool :=
  match l with
  | [] => false
  | c :: rest => (decide (c = '\n' ∧ rest.take 2 = ['\n', '\n'])) || hasTripleNl rest

/-- A digit immediately followed by a period occurs somewhere. -/
def hasDigitDot (l : List Char) : Bool :=
  match l with
  | [] => false
  | a :: rest => (a.isDigit && decide (rest.head? = some '.')) || hasDigitDot rest

/-- A line that both starts with two asterisks and ends with a colon
(the shape whose rule-4 bolding creates a quadruple asterisk). -/
def badHeaderLine (line : List Char) : Bool :=
  decide (line.take 2 = ['*', '*']) && decide (line.getLast? = some ':')

/-- Some line of the text is a `badHeaderLine`, scanning with the same
line-accumulator discipline as `mbhAux`. -/
def hbcAux (acc : List Char) : List Char → Bool
  | [] => badHeaderLine acc.reverse
  | c :: rest =>
    if isLineTerm c then badHeaderLine acc.reverse || hbcAux [] rest
    else hbcAux (c :: acc) rest

/-- Some line of the text both starts with two asterisks and ends with a
colon. -/
def hasBoldColonLine (l : List Char) : Bool :=
  hbcAux [] l

/-!
## Data model and request handler (src/summarize-function.js lines 93-296,
src/server.js lines 40-71)

Network effects are supplied as explicit arguments: the outcome of the
metadata fetch, the outcome of the transcript fetch (the list of caption
fragment texts), the generative model call, the clock, and the two
locale-dependent formatters `Number(..).toLocaleString()` and
`new Date(..).toLocaleDateString()`.  JS absent-or-string fields are
`Option String`; JS truthiness on strings is falsity of null/undefined
and of the empty string. -/

/-- Truthiness of a JS value that is either absent or a string. -/
def jsTruthyStr (o : Option String) : Bool :=
  match o with
  | none => false
  | some s => !decide (s = "")

/-- JS `a || b` for a defaulted string option (used for `model ||
"gemini-1.5-flash"`). -/
def jsOr (o : Option String) (d : String) : String :=
  match o with
  | none => d
  | some s => if s = "" then d else s

/-- Template-literal interpolation of a possibly-undefined JS string. -/
def jsInterp (o : Option String) : String :=
  match o with
  | none => "undefined"
  | some s => s

/-- The normalized metadata record built from the video-metadata API
response (src/summarize-function.js lines 31-43); every field may be
absent since the API may omit it. -/
structure VideoMetadata where
  title : Option String
  description : Option String
  channelTitle : Option String
  publishedAt : Option String
  tags : Option (List String)
  categoryId : Option String
  viewCount : Option String
  likeCount : Option String
  commentCount : Option String
  duration : Option String
  thumbnails : Option String
deriving DecidableEq, Repr

/-- The placeholder substituted when the metadata fetch fails
(src/summarize-function.js line 161). -/
def placeholderMetadata : VideoMetadata :=
  { title := some "Title unavailable"
  , description := some "Metadata unavailable"
  , channelTitle := some "Unknown"
  , publishedAt := none
  , tags := none
  , categoryId := none
  , viewCount := none
  , likeCount := none
  , commentCount := none
  , duration := none
  , thumbnails := none }

/-- The parsed POST body `{youtube_link, model, additional_prompt}`. -/
structure ReqBody where
  youtube_link : Option String
  model : Option String
  additional_prompt : Option String
deriving DecidableEq, Repr

/-- `getVideoTranscript` (src/summarize-function.js lines 54-63): join
the fragment texts with single spaces on success, return null on any
failure. -/
def getVideoTranscript (fetchResult : Except String (List String)) : Option String :=
  match fetchResult with
  | Except.ok items => some (String.intercalate " " items)
  | Except.error _ => none

/-- Substring test, JS `String.prototype.includes`. -/
def containsSub (s pat : String) : Bool :=
  s.data.tails.any (fun t => decide (t.take pat.data.length = pat.data))

/-- The description portion of the prompt (line 184 of the source). -/
def descriptionSection (md : VideoMetadata) : String :=
  match md.description with
  | none => "No description available"
  | some d =>
    if d = "" then "No description available"
    else String.mk (d.data.take 1000) ++ (if 1000 < d.data.length then "..." else "")

/-- The tags portion of the prompt (line 186 of the source). -/
def tagsSection (md : VideoMetadata) : String :=
  match md.tags with
  | none => ""
  | some tags =>
    if 0 < tags.length then "**🏷️ TAGS:** " ++ String.intercalate ", " (tags.take 10)
    else ""

/-- The transcript portion of the prompt (lines 188-189 of the source). -/
def transcriptSection (t : Option String) : String :=
  match t with
  | none => "**📝 TRANSCRIPT:** Not available (video may not have captions)"
  | some s =>
    if s = "" then "**📝 TRANSCRIPT:** Not available (video may not have captions)"
    else
      "**📝 VIDEO TRANSCRIPT:**\n" ++ String.mk (s.data.take 6000) ++
        (if 6000 < s.data.length then "...(transcript continues)" else "")

/-- The video-details header of the prompt template (lines 173-183). -/
def promptHeader (md : VideoMetadata) (ln ld : String → String) : String :=
  "Please analyze this YouTube video using the following information:\n\n**📺 VIDEO DETAILS:**\n- Title: " ++
  jsInterp md.title ++
  "\n- Channel: " ++ jsInterp md.channelTitle ++
  "\n- Duration: " ++ formatDuration md.duration ++
  "\n- Views: " ++ (if jsTruthyStr md.viewCount then ln (jsInterp md.viewCount) else "Unknown") ++
  "\n- Published: " ++ (if jsTruthyStr md.publishedAt then ld (jsInterp md.publishedAt) else "Unknown") ++
  "\n- Likes: " ++ (if jsTruthyStr md.likeCount then ln (jsInterp md.likeCount) else "Unknown") ++
  "\n\n**📄 DESCRIPTION:**\n"

/-- The fixed analysis-request block of the prompt template (lines 191-218). -/
def analysisRequestBlock : String :=
  "\n\n**🎯 ANALYSIS REQUEST:**\nBased on the above information, please provide a comprehensive analysis with the following structure:\n\n🎬 **Video Overview**\nWhat is this video about? What\u0027s the main topic?\n\n🎯 **Purpose & Goals** \nWhat is the creator trying to achieve or teach?\n\n🔑 **Key Points & Takeaways**\nList the most important points discussed (based on transcript if available)\n\n💡 **Main Insights & Lessons**\nWhat are the key insights viewers will gain?\n\n👥 **Target Audience**\nWho would benefit most from watching this video?\n\n📚 **Content Type & Style**\nEducational, entertainment, tutorial, review, etc.\n\n⭐ **Value Proposition**\nWhat specific value does this video provide?\n\n📋 **Summary**\nProvide a comprehensive summary of the content\n\nIMPORTANT: Use the emoji headers exactly as shown above (🎬 **Video Overview**, not \"Video Overview\" followed by \"🎬 Video Overview\"). Do not repeat section titles."

/-- The special-instructions block (lines 220-222), appended when the
user text is truthy and does not trim to nothing. -/
def specialInstructions (ap : Option String) : String :=
  match ap with
  | none => ""
  | some s =>
    if s = "" then ""
    else if trimList s.data = [] then ""
    else "\n\n**🎨 SPECIAL INSTRUCTIONS:** " ++ s

/-- The model-dependent formatting suffix (lines 235-242): one text for
model names containing "2.0", another for the default family. -/
def modelSuffix (modelName : String) : String :=
  if containsSub modelName "2.0" then
    "\n\n**FORMATTING INSTRUCTIONS:** Please structure your response with clear emoji headers (🎬, 🎯, 🔑, etc.) and use bullet points with * for lists. Use **bold** for emphasis."
  else
    "\n\n**FORMATTING INSTRUCTIONS:** Please use the emoji section headers exactly as specified above. Do NOT write plain text headers before emoji headers. Start each section directly with the emoji (e.g., \u0027🎬 **Video Overview**\u0027 not \u0027Video Overview\u0027 followed by \u0027🎬 Video Overview\u0027)."

/-- The complete prompt handed to the generative model. -/
def fullPrompt (md : VideoMetadata) (t : Option String) (ap : Option String)
    (modelName : String) (ln ld : String → String) : String :=
  promptHeader md ln ld ++ descriptionSection md ++ "\n\n" ++ tagsSection md ++
    "\n\n" ++ transcriptSection t ++ analysisRequestBlock ++
    specialInstructions ap ++ modelSuffix modelName

/-- The success body of the function handler (lines 260-281). -/
structure AnalysisResult where
  success : Bool
  summary : String
  model_used : String
  video_url : String
  video_id : String
  vm_title : Option String
  vm_channel : Option String
  vm_duration : String
  vm_views : Option String
  vm_likes : Option String
  vm_published : Option String
  aq_has_metadata : Bool
  aq_has_transcript : Bool
  aq_transcript_length : Nat
  aq_content_richness : String
  timestamp : String
deriving DecidableEq, Repr

/-- The success body of the server variant's test response
(src/server.js lines 55-62). -/
structure ServerStub where
  success : Bool
  message : String
  video_url : String
  video_id : String
  model_used : String
  timestamp : String
deriving DecidableEq, Repr

/-- The JSON bodies either entry point can produce. -/
inductive RespBody where
  | empty : RespBody
  | health (status message timestamp : String) (gemini youtube : Bool)
      (features : List String) : RespBody
  | jsonError (error : String) : RespBody
  | jsonErrorDetails (error details : String) : RespBody
  | stub (r : ServerStub) : RespBody
  | success (r : AnalysisResult) : RespBody
deriving DecidableEq, Repr

structure HttpResponse where
  statusCode : Nat
  body : RespBody
deriving DecidableEq, Repr

/-- The request-independent environment and the outcomes of the external
calls made while serving one request. -/
structure World where
  geminiKey : Bool
  youtubeKey : Bool
  metadataResult : Except String VideoMetadata
  transcriptItems : Except String (List String)
  generate : String → Except String String
  now : String
  localeNum : String → String
  localeDate : String → String

/-- The metadata actually used by the handler: the fetched record, or
the placeholder substituted by the `.catch` fallback (lines 158-162). -/
def effMetadata (w : World) : VideoMetadata :=
  match w.metadataResult with
  | Except.ok m => m
  | Except.error _ => placeholderMetadata

/-- Build the success response record (lines 260-281 of the source). -/
def mkResult (link vid modelName summary : String) (md : VideoMetadata)
    (t : Option String) (now : String) : AnalysisResult :=
  { success := true
  , summary := summary
  , model_used := modelName
  , video_url := link
  , video_id := vid
  , vm_title := md.title
  , vm_channel := md.channelTitle
  , vm_duration := formatDuration md.duration
  , vm_views := md.viewCount
  , vm_likes := md.likeCount
  , vm_published := md.publishedAt
  , aq_has_metadata := jsTruthyStr md.title
  , aq_has_transcript := jsTruthyStr t
  , aq_transcript_length := if jsTruthyStr t then (t.getD "").length else 0
  , aq_content_richness := if jsTruthyStr t then "High" else "Medium"
  , timestamp := now }

/-- `exports.handler` of src/summarize-function.js. -/
def handler (httpMethod : String) (parsedBody : Except String ReqBody)
    (w : World) : HttpResponse :=
  if httpMethod = "OPTIONS" then ⟨200, RespBody.empty⟩
  else if httpMethod = "GET" then
    ⟨200, RespBody.health "OK" "YouTube Summarizer API is running" w.now
      w.geminiKey w.youtubeKey
      ["Real video metadata", "Video transcripts", "AI analysis"]⟩
  else if httpMethod ≠ "POST" then ⟨405, RespBody.jsonError "Method not allowed"⟩
  else
    match parsedBody with
    | Except.error e => ⟨500, RespBody.jsonErrorDetails "Failed to analyze video" e⟩
    | Except.ok b =>
      match b.youtube_link with
      | none => ⟨400, RespBody.jsonError "YouTube link is required"⟩
      | some link =>
        if link = "" then ⟨400, RespBody.jsonError "YouTube link is required"⟩
        else
          match extractVideoId link with
          | none => ⟨400, RespBody.jsonError "Invalid YouTube URL"⟩
          | some vid =>
            match w.generate (fullPrompt (effMetadata w)
                (getVideoTranscript w.transcriptItems) b.additional_prompt
                (jsOr b.model "gemini-1.5-flash") w.localeNum w.localeDate) with
            | Except.error e => ⟨500, RespBody.jsonErrorDetails "Failed to analyze video" e⟩
            | Except.ok raw =>
              ⟨200, RespBody.success (mkResult link vid (jsOr b.model "gemini-1.5-flash")
                (if containsSub (jsOr b.model "gemini-1.5-flash") "2.0"
                  then cleanFormatting raw else raw)
                (effMetadata w) (getVideoTranscript w.transcriptItems) w.now)⟩

/-- The `POST /summarize` route of the server variant
(src/server.js lines 40-71): same validation, then a fixed test
response in place of the full orchestration. -/
def serverSummarize (b : ReqBody) (now : String) : HttpResponse :=
  match b.youtube_link with
  | none => ⟨400, RespBody.jsonError "YouTube link is required"⟩
  | some link =>
    if link = "" then ⟨400, RespBody.jsonError "YouTube link is required"⟩
    else
      match extractVideoId link with
      | none => ⟨400, RespBody.jsonError "Invalid YouTube URL"⟩
      | some vid =>
        ⟨200, RespBody.stub
          { success := true
          , message := "Backend is working! Video analysis will be added next."
          , video_url := link
          , video_id := vid
          , model_used := jsOr b.model "gemini-1.5-flash"
          , timestamp := now }⟩

/-- A concrete valid request body used by several evaluation theorems. -/
def reqW : ReqBody := ⟨some "https://youtu.be/dQw4w9WgXcQ", none, none⟩

/-- A concrete environment whose transcript fetch fails and whose model
call returns the fixed text "OUT". -/
def worldNoTr : World :=
  { geminiKey := true
  , youtubeKey := true
  , metadataResult := Except.error "metadata service down"
  , transcriptItems := Except.error "captions disabled"
  , generate := fun _ => Except.ok "OUT"
  , now := "T0"
  , localeNum := fun s => s
  , localeDate := fun s => s }

/-! ## Theorems -/

/-- C7 counterexample: the empty string is a non-absent input string that
does not match the duration shape, yet the formatter returns the literal
"Unknown" rather than the input unchanged (JS `!duration` treats the
empty string like an absent value). -/
theorem c7_counterexample :
    formatDuration (some "") = "Unknown" ∧ ("Unknown" : String) ≠ "" := by
  constructor
  · rfl
  · decide

/-- C7 (amended): formatDuration maps "PT4M13S" to "4m 13s", "PT1H2M" to
"1h 2m" and an absent input to "Unknown"; and every non-absent, NON-EMPTY
input string that does not match the duration shape (no occurrence of
"PT", so the regex fails) is returned unchanged.  The empty string is
the one exception forced by the counterexample: it is treated as absent
and yields "Unknown". -/
theorem c7_formatDuration :
    formatDuration (some "PT4M13S") = "4m 13s" ∧
    formatDuration (some "PT1H2M") = "1h 2m" ∧
    formatDuration none = "Unknown" ∧
    (∀ d : String, d ≠ "" → findPT d.data = none → formatDuration (some d) = d) := by
  refine ⟨rfl, rfl, rfl, ?_⟩
  intro d hne hpt
  simp [formatDuration, hne, hpt]

/-- Witness for the amended C7 theorem at the concrete non-matching
input "nonsense". -/
theorem c7_formatDuration_witness : formatDuration (some "nonsense") = "nonsense" :=
  c7_formatDuration.2.2.2 "nonsense" (by decide) (by decide)

/-- C2 (code bug witness): a POST request with a valid link whose
metadata fetch fails still yields a 200 response with the placeholder
title "Title unavailable" — but `analysis_quality.has_metadata` is
`true`, not `false` as specified, because the source computes it as
`!!metadata.title` after the catch handler has already substituted the
truthy placeholder title. -/
theorem c2_metadata_failure_eval :
    handler "POST" (Except.ok ⟨some "https://youtu.be/dQw4w9WgXcQ", none, none⟩)
      { geminiKey := true, youtubeKey := true
      , metadataResult := Except.error "quota exceeded"
      , transcriptItems := Except.error "no captions"
      , generate := fun _ => Except.ok "SUMMARY"
      , now := "2026-01-01T00:00:00.000Z"
      , localeNum := fun s => s, localeDate := fun s => s } =
    ⟨200, RespBody.success
      { success := true, summary := "SUMMARY", model_used := "gemini-1.5-flash"
      , video_url := "https://youtu.be/dQw4w9WgXcQ", video_id := "dQw4w9WgXcQ"
      , vm_title := some "Title unavailable", vm_channel := some "Unknown"
      , vm_duration := "Unknown", vm_views := none, vm_likes := none
      , vm_published := none
      , aq_has_metadata := true
      , aq_has_transcript := false, aq_transcript_length := 0
      , aq_content_richness := "Medium"
      , timestamp := "2026-01-01T00:00:00.000Z" }⟩ := by
  rfl

/-- C9: the composed prompt decomposes into the template around the
description, tags and transcript sections, and those sections satisfy
the stated truncation, marker and presence conditions. -/
theorem c9_prompt_sections :
    ∀ (md : VideoMetadata) (t ap : Option String) (mn : String) (ln ld : String → String),
    (fullPrompt md t ap mn ln ld =
      promptHeader md ln ld ++ descriptionSection md ++ "\n\n" ++ tagsSection md ++
        "\n\n" ++ transcriptSection t ++ analysisRequestBlock ++
        specialInstructions ap ++ modelSuffix mn) ∧
    (∀ d, md.description = some d → d ≠ "" →
      descriptionSection md =
        String.mk (d.data.take 1000) ++ (if 1000 < d.data.length then "..." else "")) ∧
    (md.description = none ∨ md.description = some "" →
      descriptionSection md = "No description available") ∧
    (∀ tags, md.tags = some tags → tags ≠ [] →
      tagsSection md = "**🏷️ TAGS:** " ++ String.intercalate ", " (tags.take 10)) ∧
    (md.tags = none ∨ md.tags = some [] → tagsSection md = "") ∧
    (t = none →
      transcriptSection t = "**📝 TRANSCRIPT:** Not available (video may not have captions)") ∧
    (∀ s, t = some s → s ≠ "" →
      transcriptSection t = "**📝 VIDEO TRANSCRIPT:**\n" ++ String.mk (s.data.take 6000) ++
        (if 6000 < s.data.length then "...(transcript continues)" else "")) := by
  intro md t ap mn ln ld
  refine ⟨rfl, ?_, ?_, ?_, ?_, ?_, ?_⟩
  · intro d hd hne
    simp [descriptionSection, hd, hne]
  · rintro (hd | hd) <;> simp [descriptionSection, hd]
  · intro tags htags hne
    have hlen : 0 < tags.length := List.length_pos.mpr hne
    simp [tagsSection, htags, hlen]
  · rintro (ht | ht) <;> simp [tagsSection, ht]
  · intro ht
    simp [transcriptSection, ht]
  · intro s hs hne
    simp [transcriptSection, hs, hne]

/-- Witness for C9 at a concrete metadata record, transcript and model
name. -/
theorem c9_prompt_sections_witness :
    descriptionSection
      { title := none, description := some "hi", channelTitle := none
      , publishedAt := none, tags := some ["a", "b"], categoryId := none
      , viewCount := none, likeCount := none, commentCount := none
      , duration := none, thumbnails := none } =
      String.mk (("hi" : String).data.take 1000) ++
        (if 1000 < ("hi" : String).data.length then "..." else "") ∧
    tagsSection
      { title := none, description := some "hi", channelTitle := none
      , publishedAt := none, tags := some ["a", "b"], categoryId := none
      , viewCount := none, likeCount := none, commentCount := none
      , duration := none, thumbnails := none } =
      "**🏷️ TAGS:** " ++ String.intercalate ", " (["a", "b"].take 10) ∧
    transcriptSection (some "words") =
      "**📝 VIDEO TRANSCRIPT:**\n" ++ String.mk (("words" : String).data.take 6000) ++
        (if 6000 < ("words" : String).data.length then "...(transcript continues)" else "") := by
  refine ⟨?_, ?_, ?_⟩
  · exact (c9_prompt_sections _ (some "words") none "m" id id).2.1 "hi" rfl (by decide)
  · exact (c9_prompt_sections _ (some "words") none "m" id id).2.2.2.1 ["a", "b"] rfl (by decide)
  · exact (c9_prompt_sections
      { title := none, description := some "hi", channelTitle := none
      , publishedAt := none, tags := some ["a", "b"], categoryId := none
      , viewCount := none, likeCount := none, commentCount := none
      , duration := none, thumbnails := none }
      (some "words") none "m" id id).2.2.2.2.2.2 "words" rfl (by decide)

/-- C10: a transcript service success with zero caption fragments yields
the empty-string transcript, and the handler's observable behaviour with
that transcript is identical to its behaviour when the transcript fetch
failed: same prompt section, same response, has_transcript false,
transcript_length zero, content_richness "Medium". -/
theorem c10_empty_transcript :
    getVideoTranscript (Except.ok []) = some "" ∧
    transcriptSection (some "") = transcriptSection none ∧
    (∀ (m : String) (pb : Except String ReqBody) (w : World) (e : String),
      handler m pb { w with transcriptItems := Except.ok [] } =
        handler m pb { w with transcriptItems := Except.error e }) ∧
    (∀ link vid mn summary md now,
      (mkResult link vid mn summary md (some "") now).aq_has_transcript = false ∧
      (mkResult link vid mn summary md (some "") now).aq_transcript_length = 0 ∧
      (mkResult link vid mn summary md (some "") now).aq_content_richness = "Medium") := by
  refine ⟨rfl, rfl, ?_, ?_⟩
  · intro m pb w e
    rfl
  · intro link vid mn summary md now
    exact ⟨rfl, rfl, rfl⟩

theorem containsShape_cons (c : Char) (rest : List Char) :
    containsShape (c :: rest) = ((tryAlt (c :: rest)).isSome || containsShape rest) := by
  simp [containsShape]

theorem scanAux_none_of_not_shape (l : List Char) (h : containsShape l = false) :
    scanAux l = none := by
  induction l with
  | nil => rfl
  | cons c rest ih =>
    rw [containsShape_cons, Bool.or_eq_false_iff] at h
    have h1 : tryAlt (c :: rest) = none := Option.not_isSome_iff_eq_none.mp (by simp [h.1])
    have h2 := ih h.2
    unfold scanAux
    rw [h2, h1]
    by_cases hc : isLineTerm c <;> simp [hc]

/-- Any successful alternative match consumes at least two characters
and starts with a character that is not a line terminator. -/
theorem tryAlt_shape (l : List Char) (n : Nat) (h : tryAlt l = some n) :
    2 ≤ n ∧ ∃ c r, l = c :: r ∧ isLineTerm c = false := by
  unfold tryAlt at h
  cases l with
  | nil => simp at h
  | cons a r =>
    split_ifs at h with h1 h2 h3 h4 h5 h6 <;> injection h with h7
    · obtain ⟨hy, -⟩ := h1
      simp only [List.take_succ_cons] at hy
      injection hy with ha
      exact ⟨by omega, a, r, rfl, by rw [ha]; decide⟩
    · simp only [List.take_succ_cons] at h2
      injection h2 with ha
      exact ⟨by omega, a, r, rfl, by rw [ha]; decide⟩
    · obtain ⟨hu, -⟩ := h3
      simp only [List.take_succ_cons] at hu
      injection hu with ha
      exact ⟨by omega, a, r, rfl, by rw [ha]; decide⟩
    · simp only [List.take_succ_cons] at h4
      injection h4 with ha
      exact ⟨by omega, a, r, rfl, by rw [ha]; decide⟩
    · simp only [List.take_succ_cons] at h5
      injection h5 with ha
      exact ⟨by omega, a, r, rfl, by rw [ha]; decide⟩
    · simp only [List.take_succ_cons] at h6
      injection h6 with ha
      exact ⟨by omega, a, r, rfl, by rw [ha]; decide⟩

theorem scanAux_all_none (l : List Char) (h : ∀ i, tryAlt (l.drop i) = none) :
    scanAux l = none := by
  induction l with
  | nil => rfl
  | cons c rest ih =>
    have h0 : tryAlt (c :: rest) = none := h 0
    have h2 : scanAux rest = none := ih (fun i => h (i + 1))
    unfold scanAux
    rw [h2, h0]
    by_cases hc : isLineTerm c <;> simp [hc]

theorem scanAux_found (L tl : List Char) (n : Nat) (ha : tryAlt L = some n)
    (hL : L.drop n = tl)
    (hrest : ∀ i, 0 < i → tryAlt (L.drop i) = none) :
    scanAux L = some tl := by
  obtain ⟨-, c, r, hcr, hc⟩ := tryAlt_shape L n ha
  subst hcr
  have h2 : scanAux r = none := by
    apply scanAux_all_none
    intro i
    have := hrest (i + 1) (by omega)
    simpa using this
  unfold scanAux
  rw [h2, ha]
  simpa [hc] using hL

theorem scanAux_prepend (p L : List Char) (tl : List Char)
    (hp : ∀ c ∈ p, isLineTerm c = false) (h : scanAux L = some tl) :
    scanAux (p ++ L) = some tl := by
  induction p with
  | nil => simpa using h
  | cons c p' ih =>
    have hc : isLineTerm c = false := hp c (by simp)
    have h2 : scanAux (p' ++ L) = some tl := ih (fun d hd => hp d (by simp [hd]))
    unfold scanAux
    simp only [List.cons_append]
    rw [h2]
    simp [hc]

theorem extractVideoId_of_scan_none (url : String) (h : scanAux url.data = none) :
    extractVideoId url = none := by
  unfold extractVideoId
  rw [h]

theorem extractVideoId_of_scan_some (url : String) (r : List Char)
    (h : scanAux url.data = some r) :
    extractVideoId url =
      (if (r.takeWhile (fun c => !isDelim c)).length = 11
       then some (String.mk (r.takeWhile (fun c => !isDelim c))) else none) := by
  unfold extractVideoId
  rw [h]

/-- C5: the URL parser produces no identifier from a string that
contains no recognized URL shape, nor when the captured token's length
is not exactly 11; conversely an identifier is produced only from a
string containing a recognized shape, and it always has 11 characters. -/
theorem c5_extractVideoId_rejects :
    ∀ url : String,
    (containsShape url.data = false → extractVideoId url = none) ∧
    (∀ r, scanAux url.data = some r →
      (r.takeWhile (fun c => !isDelim c)).length ≠ 11 → extractVideoId url = none) ∧
    (∀ id, extractVideoId url = some id →
      containsShape url.data = true ∧ id.length = 11) := by
  intro url
  refine ⟨?_, ?_, ?_⟩
  · intro h
    exact extractVideoId_of_scan_none url (scanAux_none_of_not_shape url.data h)
  · intro r hr hlen
    rw [extractVideoId_of_scan_some url r hr, if_neg hlen]
  · intro id h
    cases hscan : scanAux url.data with
    | none =>
      rw [extractVideoId_of_scan_none url hscan] at h
      exact absurd h (by simp)
    | some r =>
      rw [extractVideoId_of_scan_some url r hscan] at h
      by_cases hlen : (r.takeWhile (fun c => !isDelim c)).length = 11
      · constructor
        · by_contra hcs
          have hfalse : containsShape url.data = false := by
            cases hx : containsShape url.data
            · rfl
            · exact absurd hx hcs
          rw [scanAux_none_of_not_shape url.data hfalse] at hscan
          exact absurd hscan (by simp)
        · rw [if_pos hlen] at h
          have h2 : String.mk (r.takeWhile (fun c => !isDelim c)) = id :=
            Option.some.inj h
          rw [← h2]
          simpa using hlen
      · rw [if_neg hlen] at h
        exact absurd h (by simp)

/-- Witness for C5: a shapeless string is rejected, an 11-character capture
bound is enforced, and a produced identifier certifies shape containment. -/
theorem c5_extractVideoId_rejects_witness :
    extractVideoId "hello world" = none ∧
    extractVideoId "watch?v=abc" = none ∧
    (containsShape ("watch?v=AAAAAAAAAAA" : String).data = true ∧
      ("AAAAAAAAAAA" : String).length = 11) := by
  refine ⟨?_, ?_, ?_⟩
  · exact (c5_extractVideoId_rejects "hello world").1 (by decide)
  · exact (c5_extractVideoId_rejects "watch?v=abc").2.1 ("abc" : String).data (by decide)
      (by decide)
  · exact (c5_extractVideoId_rejects "watch?v=AAAAAAAAAAA").2.2 "AAAAAAAAAAA" (by decide)

/-- C6 counterexample: "watch?v=AAAAAAAAAAA&v=bc" is a URL in the
recognized shape `watch?v=` whose following token, taken up to the first
delimiter, is the 11-character "AAAAAAAAAAA"; yet the parser returns no
identifier, because the greedy prefix of the regex selects the rightmost
alternative `&v=`, whose capture "bc" has length 2. -/
theorem c6_counterexample :
    ("watch?v=AAAAAAAAAAA&v=bc" : String).data =
      ("watch?v=" : String).data ++ ("AAAAAAAAAAA" : String).data ++ ("&v=bc" : String).data ∧
    tryAlt ("watch?v=AAAAAAAAAAA&v=bc" : String).data = some 8 ∧
    (("AAAAAAAAAAA" : String).data ++ ("&v=bc" : String).data).takeWhile
        (fun c => !isDelim c) = ("AAAAAAAAAAA" : String).data ∧
    ("AAAAAAAAAAA" : String).length = 11 ∧
    extractVideoId "watch?v=AAAAAAAAAAA&v=bc" = none := by
  refine ⟨by decide, by decide, by decide, by decide, by decide⟩

/-- C6 (amended): the parser returns the 11-character token following a
recognized shape, provided the shape occurrence is reachable (no line
terminator before it) and is the rightmost one (no alternative matches
at any later position of the URL). -/
theorem c6_extract_amended (p a t s : List Char)
    (hp : ∀ c ∈ p, isLineTerm c = false)
    (ha : tryAlt (a ++ (t ++ s)) = some a.length)
    (hrest : ∀ i, i < (a ++ (t ++ s)).length → 0 < i →
      tryAlt ((a ++ (t ++ s)).drop i) = none)
    (hs : (t ++ s).takeWhile (fun c => !isDelim c) = t)
    (hlen : t.length = 11) :
    extractVideoId (String.mk (p ++ (a ++ (t ++ s)))) = some (String.mk t) := by
  have hrest' : ∀ i, 0 < i → tryAlt ((a ++ (t ++ s)).drop i) = none := by
    intro i hi
    by_cases hlt : i < (a ++ (t ++ s)).length
    · exact hrest i hlt hi
    · rw [List.drop_eq_nil_of_le (by omega)]
      rfl
  have hfound : scanAux (a ++ (t ++ s)) = some (t ++ s) :=
    scanAux_found _ _ _ ha (List.drop_left a (t ++ s)) hrest'
  have hscan : scanAux (String.mk (p ++ (a ++ (t ++ s)))).data = some (t ++ s) :=
    scanAux_prepend p _ _ hp hfound
  rw [extractVideoId_of_scan_some _ _ hscan, hs, if_pos hlen]

/-- Witness for the amended C6 theorem on a concrete youtu.be URL. -/
theorem c6_extract_amended_witness :
    extractVideoId
        (String.mk (("https://" : String).data ++
          (("youtu.be/" : String).data ++ (("dQw4w9WgXcQ" : String).data ++ [])))) =
      some (String.mk ("dQw4w9WgXcQ" : String).data) :=
  c6_extract_amended ("https://" : String).data ("youtu.be/" : String).data
    ("dQw4w9WgXcQ" : String).data [] (by decide) (by decide) (by decide) (by decide)
    (by decide)

theorem hasDigitDot_cons (a : Char) (rest : List Char) :
    hasDigitDot (a :: rest) =
      ((a.isDigit && decide (rest.head? = some '.')) || hasDigitDot rest) := rfl

theorem hasDigitDot_append_right (x y : List Char)
    (h : hasDigitDot (x ++ y) = false) : hasDigitDot y = false := by
  induction x with
  | nil => simpa using h
  | cons a x' ih =>
    rw [List.cons_append, hasDigitDot_cons, Bool.or_eq_false_iff] at h
    exact ih h.2

/-- If the head of a list is a digit and the first non-digit character is
a period, the list contains a digit followed by a period. -/
theorem hasDigitDot_of_run (c : Char) (rest : List Char) (hc : c.isDigit = true)
    (hd : ((c :: rest).dropWhile Char.isDigit).head? = some '.') :
    hasDigitDot (c :: rest) = true := by
  induction rest generalizing c with
  | nil =>
    rw [List.dropWhile_cons_of_pos hc] at hd
    exact absurd hd (by simp [List.dropWhile])
  | cons b rest' ih =>
    rw [List.dropWhile_cons_of_pos hc] at hd
    by_cases hb : b.isDigit = true
    · have h2 := ih b hb (by rw [List.dropWhile_cons_of_pos hb]; rw [List.dropWhile_cons_of_pos hb] at hd; exact hd)
      rw [hasDigitDot_cons, h2, Bool.or_true]
    · rw [List.dropWhile_cons_of_neg (by simp [hb])] at hd
      simp only [List.head?_cons, Option.some.injEq] at hd
      rw [hasDigitDot_cons]
      simp [hc, hd]

/-- A nonempty digit run followed by a period contains a digit followed
by a period. -/
theorem hasDigitDot_of_digits_dot (ds ys : List Char) (hne : ds ≠ [])
    (hdig : ∀ c ∈ ds, c.isDigit = true) :
    hasDigitDot (ds ++ '.' :: ys) = true := by
  induction ds with
  | nil => exact absurd rfl hne
  | cons d ds' ih =>
    rw [List.cons_append, hasDigitDot_cons]
    cases ds' with
    | nil =>
      simp [hdig d (by simp)]
    | cons e ds'' =>
      rw [ih (by simp) (fun c hc => hdig c (by simp [hc]))]
      simp

/-- Reading a run of digits only accumulates them. -/
theorem fmtNumAux_digits (ds : List Char) (hdig : ∀ c ∈ ds, c.isDigit = true) :
    ∀ (run l : List Char), fmtNumAux run false (ds ++ l) = fmtNumAux (ds.reverse ++ run) false l := by
  induction ds with
  | nil => intro run l; simp
  | cons d ds' ih =>
    intro run l
    have hd : d.isDigit = true := hdig d (by simp)
    rw [show (d :: ds') ++ l = d :: (ds' ++ l) from rfl]
    rw [show fmtNumAux run false (d :: (ds' ++ l)) = fmtNumAux (d :: run) false (ds' ++ l) from by
      simp [fmtNumAux, hd]]
    rw [ih (fun c hc => hdig c (by simp [hc])) (d :: run) l]
    simp

/-- The whitespace-skipping state consumes exactly the JS whitespace
that the greedy `\s*` of the match consumes. -/
theorem fmtNumAux_skip (l : List Char) :
    fmtNumAux [] true l = fmtNumAux [] false (l.dropWhile isJsWs) := by
  induction l with
  | nil => rfl
  | cons c rest ih =>
    by_cases hw : isJsWs c = true
    · rw [List.dropWhile_cons_of_pos hw]
      rw [show fmtNumAux [] true (c :: rest) = fmtNumAux [] true rest from by
        simp [fmtNumAux, hw]]
      exact ih
    · rw [List.dropWhile_cons_of_neg (by simpa using hw)]
      by_cases hd : c.isDigit = true
      · simp [fmtNumAux, hw, hd]
      · simp [fmtNumAux, hw, hd]

/-- Rule 2 leaves any text without a digit-period sequence unchanged
(generalized over the pending digit run). -/
theorem fmtNumAux_eq_self (l : List Char) :
    ∀ run : List Char, (∀ c ∈ run, c.isDigit = true) →
      hasDigitDot (run.reverse ++ l) = false →
      fmtNumAux run false l = run.reverse ++ l := by
  induction l with
  | nil =>
    intro run hr h
    simp [fmtNumAux]
  | cons c rest ih =>
    intro run hr h
    by_cases hd : c.isDigit = true
    · rw [show fmtNumAux run false (c :: rest) = fmtNumAux (c :: run) false rest from by
        simp [fmtNumAux, hd]]
      have hmem : ∀ x ∈ (c :: run), x.isDigit = true := by
        intro x hx
        rcases List.mem_cons.mp hx with hx | hx
        · rw [hx]; exact hd
        · exact hr x hx
      have harr : (c :: run).reverse ++ rest = run.reverse ++ c :: rest := by
        simp
      rw [ih (c :: run) hmem (by rw [harr]; exact h), harr]
    · by_cases hdot : c = '.' ∧ run ≠ []
      · exfalso
        obtain ⟨hc, hrun⟩ := hdot
        subst hc
        have hdd : hasDigitDot (run.reverse ++ '.' :: rest) = true := by
          apply hasDigitDot_of_digits_dot
          · simpa using hrun
          · intro x hx
            exact hr x (List.mem_reverse.mp hx)
        rw [h] at hdd
        exact absurd hdd (by simp)
      · rw [show fmtNumAux run false (c :: rest) =
            run.reverse ++ c :: fmtNumAux [] false rest from by
          simp [fmtNumAux, hd, hdot]]
        have h2 : hasDigitDot rest = false := by
          apply hasDigitDot_append_right (run.reverse ++ [c])
          simpa [List.append_assoc] using h
        rw [ih [] (by simp) (by simpa using h2)]
        simp

/-- Rule 2 leaves any text without a digit-period sequence unchanged. -/
theorem formatNumbered_eq_self (l : List Char) (h : hasDigitDot l = false) :
    formatNumbered l = l := by
  have h2 := fmtNumAux_eq_self l [] (by simp) (by simpa using h)
  simpa [formatNumbered] using h2

/-- The base case of the rule-2 rewrite: input beginning with the digit
run itself. -/
theorem formatNumbered_rw_base (ds r : List Char) (hds : ds ≠ [])
    (hdig : ∀ c ∈ ds, c.isDigit = true) :
    formatNumbered (ds ++ '.' :: r) =
      ('\n' :: '\n' :: '*' :: '*' :: ds) ++ ('.' :: '*' :: '*' :: ' ' :: []) ++
        formatNumbered (r.dropWhile isJsWs) := by
  unfold formatNumbered
  rw [fmtNumAux_digits ds hdig [] ('.' :: r)]
  have hdot : ('.' : Char).isDigit = false := by decide
  have hne : ds.reverse ≠ [] := by simpa using hds
  rw [show fmtNumAux (ds.reverse ++ []) false ('.' :: r) =
      ('\n' :: '\n' :: '*' :: '*' :: (ds.reverse ++ []).reverse) ++
        ('.' :: '*' :: '*' :: ' ' :: []) ++ fmtNumAux [] true r from by
    simp [fmtNumAux, hdot, hne]]
  rw [fmtNumAux_skip r]
  simp

/-- C4 counterexample: in "pi is 3.14" the digit-period sequence "3."
occurs mid-line, not at a line beginning, yet the numbered-list rule
(and the whole cleanup pass) rewrites it into a bold numbered marker. -/
theorem c4_counterexample :
    formatNumbered ("pi is 3.14" : String).data = ("pi is \n\n**3.** 14" : String).data ∧
    formatNumbered ("pi is 3.14" : String).data ≠ ("pi is 3.14" : String).data ∧
    cleanFormatting "pi is 3.14" = "pi is \n\n**3.** 14" := by
  refine ⟨by decide, by decide, by decide⟩

/-- C4 (amended): the numbered-list rule rewrites exactly the maximal
digit runs that are immediately followed by a period, wherever they
occur in the text (not only at line beginnings): text without a
digit-period sequence is unchanged, and each such occurrence becomes a
bold numbered marker preceded by a blank line, consuming the following
whitespace. -/
theorem c4_formatNumbered_rule :
    (∀ l : List Char, hasDigitDot l = false → formatNumbered l = l) ∧
    (∀ p ds r : List Char, ds ≠ [] → (∀ c ∈ ds, c.isDigit = true) →
      hasDigitDot p = false → (∀ c, p.getLast? = some c → c.isDigit = false) →
      formatNumbered (p ++ (ds ++ '.' :: r)) =
        p ++ ('\n' :: '\n' :: '*' :: '*' :: ds) ++ ('.' :: '*' :: '*' :: ' ' :: []) ++
          formatNumbered (r.dropWhile isJsWs)) := by
  constructor
  · exact formatNumbered_eq_self
  · intro p ds r hds hdig
    have H : ∀ (n : Nat) (p : List Char), p.length ≤ n → hasDigitDot p = false →
        (∀ c, p.getLast? = some c → c.isDigit = false) →
        formatNumbered (p ++ (ds ++ '.' :: r)) =
          p ++ ('\n' :: '\n' :: '*' :: '*' :: ds) ++ ('.' :: '*' :: '*' :: ' ' :: []) ++
            formatNumbered (r.dropWhile isJsWs) := by
      intro n
      induction n with
      | zero =>
        intro p hlen _ _
        have hp0 : p = [] := List.length_eq_zero.mp (Nat.le_zero.mp hlen)
        subst hp0
        simpa [List.append_assoc] using formatNumbered_rw_base ds r hds hdig
      | succ n ih =>
        intro p hlen hp hlast
        cases p with
        | nil => simpa [List.append_assoc] using formatNumbered_rw_base ds r hds hdig
        | cons a p' =>
          by_cases ha : a.isDigit = true
          · have hpne : (a :: p') ≠ [] := by simp
            have hqne : (a :: p').dropWhile Char.isDigit ≠ [] := by
              intro hnil
              have hall : ∀ x ∈ (a :: p'), Char.isDigit x = true :=
                List.dropWhile_eq_nil_iff.mp hnil
              have h3 := hlast ((a :: p').getLast hpne)
                (List.getLast?_eq_getLast _ hpne)
              exact absurd (hall _ (List.getLast_mem hpne)) (by simp [h3])
            obtain ⟨e, p2, hq⟩ : ∃ e p2, (a :: p').dropWhile Char.isDigit = e :: p2 := by
              cases hx : (a :: p').dropWhile Char.isDigit with
              | nil => exact absurd hx hqne
              | cons e p2 => exact ⟨e, p2, rfl⟩
            have he : e.isDigit = false := by
              have h4 := List.head?_dropWhile_not Char.isDigit (a :: p')
              rw [hq] at h4
              simpa using h4
            have htwdig : ∀ x ∈ (a :: p').takeWhile Char.isDigit, x.isDigit = true :=
              fun x hx => List.mem_takeWhile_imp hx
            have htwne : (a :: p').takeWhile Char.isDigit ≠ [] := by
              intro htw
              have h5 := congrArg List.head? htw
              rw [List.head?_takeWhile] at h5
              simp [ha] at h5
            have hconc : (a :: p').takeWhile Char.isDigit ++ (e :: p2) = a :: p' := by
              conv_rhs => rw [← List.takeWhile_append_dropWhile Char.isDigit (a :: p'), hq]
            have hedot : e ≠ '.' := by
              intro hedot
              subst hedot
              have hdd : hasDigitDot
                  ((a :: p').takeWhile Char.isDigit ++ '.' :: p2) = true :=
                hasDigitDot_of_digits_dot _ p2 htwne htwdig
              rw [hconc, hp] at hdd
              exact absurd hdd (by simp)
            have hsplit : (a :: p') ++ (ds ++ '.' :: r) =
                (a :: p').takeWhile Char.isDigit ++ ((e :: p2) ++ (ds ++ '.' :: r)) := by
              conv_lhs => rw [← hconc]
              simp [List.append_assoc]
            have hstep : fmtNumAux (((a :: p').takeWhile Char.isDigit).reverse ++ []) false
                (e :: (p2 ++ (ds ++ '.' :: r))) =
                (((a :: p').takeWhile Char.isDigit).reverse ++ []).reverse ++
                  e :: fmtNumAux [] false (p2 ++ (ds ++ '.' :: r)) := by
              simp [fmtNumAux, he, hedot]
            have hlen2 : p2.length ≤ n := by
              have h6 := congrArg List.length hconc
              have h7 : 0 < ((a :: p').takeWhile Char.isDigit).length :=
                List.length_pos.mpr htwne
              simp only [List.length_append, List.length_cons] at h6 hlen ⊢
              omega
            have hp2 : hasDigitDot p2 = false := by
              apply hasDigitDot_append_right ((a :: p').takeWhile Char.isDigit ++ [e])
              rw [List.append_assoc]
              rw [show [e] ++ p2 = e :: p2 from rfl, hconc]
              exact hp
            have hlast2 : ∀ c, p2.getLast? = some c → c.isDigit = false := by
              intro c hc
              apply hlast
              rw [← hconc, List.getLast?_append]
              cases p2 with
              | nil => simp at hc
              | cons b p2' =>
                rw [List.getLast?_cons_cons, hc]
                rfl
            unfold formatNumbered
            rw [hsplit, fmtNumAux_digits _ htwdig [] _]
            rw [show (e :: p2) ++ (ds ++ '.' :: r) = e :: (p2 ++ (ds ++ '.' :: r)) from rfl]
            rw [hstep]
            rw [show fmtNumAux [] false (p2 ++ (ds ++ '.' :: r)) =
              formatNumbered (p2 ++ (ds ++ '.' :: r)) from rfl]
            rw [ih p2 hlen2 hp2 hlast2]
            conv_rhs => rw [← hconc]
            simp [List.append_assoc, formatNumbered]
          · have hstep : fmtNumAux [] false (a :: (p' ++ (ds ++ '.' :: r))) =
                a :: fmtNumAux [] false (p' ++ (ds ++ '.' :: r)) := by
              simp [fmtNumAux, ha]
            have hp2 : hasDigitDot p' = false := by
              rw [hasDigitDot_cons, Bool.or_eq_false_iff] at hp
              exact hp.2
            have hlast2 : ∀ c, p'.getLast? = some c → c.isDigit = false := by
              intro c hc
              apply hlast
              cases p' with
              | nil => simp at hc
              | cons b p'' =>
                rw [List.getLast?_cons_cons]
                exact hc
            unfold formatNumbered
            rw [show (a :: p') ++ (ds ++ '.' :: r) = a :: (p' ++ (ds ++ '.' :: r)) from rfl]
            rw [hstep]
            rw [show fmtNumAux [] false (p' ++ (ds ++ '.' :: r)) =
              formatNumbered (p' ++ (ds ++ '.' :: r)) from rfl]
            rw [ih p' (by simp only [List.length_cons] at hlen; omega) hp2 hlast2]
            simp [List.append_assoc, formatNumbered]
    exact fun hp hlast => H p.length p (Nat.le_refl _) hp hlast

theorem c4_formatNumbered_rule_witness :
    formatNumbered ("hello world" : String).data = ("hello world" : String).data ∧
    formatNumbered (("ab " : String).data ++ (("12" : String).data ++ '.' :: (" ok" : String).data)) =
      ("ab " : String).data ++ ('\n' :: '\n' :: '*' :: '*' :: ("12" : String).data) ++
        ('.' :: '*' :: '*' :: ' ' :: []) ++
        formatNumbered ((" ok" : String).data.dropWhile isJsWs) := by
  constructor
  · exact c4_formatNumbered_rule.1 ("hello world" : String).data (by decide)
  · exact c4_formatNumbered_rule.2 ("ab " : String).data ("12" : String).data
      (" ok" : String).data (by decide) (by decide) (by decide) (by decide)

theorem lineTerm_facts (t : Char) (h : isLineTerm t = true) :
    t ≠ '*' ∧ t.isDigit = false ∧ t ≠ '.' ∧ t ≠ ':' ∧ isJsWs t = true := by
  unfold isLineTerm at h
  rcases Bool.or_eq_true_iff.mp h with h1 | h1
  · rcases Bool.or_eq_true_iff.mp h1 with h2 | h2
    · rcases Bool.or_eq_true_iff.mp h2 with h3 | h3 <;>
        rw [show _ = _ from of_decide_eq_true h3] <;> exact ⟨by decide, rfl, by decide, by decide, rfl⟩
    · rw [show _ = _ from of_decide_eq_true h2]
      exact ⟨by decide, rfl, by decide, by decide, rfl⟩
  · rw [show _ = _ from of_decide_eq_true h1]
    exact ⟨by decide, rfl, by decide, by decide, rfl⟩

theorem hasQuadAst_cons (c : Char) (rest : List Char) :
    hasQuadAst (c :: rest) =
      (decide (c = '*' ∧ rest.take 3 = ['*', '*', '*']) || hasQuadAst rest) := rfl

theorem hasTripleNl_cons (c : Char) (rest : List Char) :
    hasTripleNl (c :: rest) =
      (decide (c = '\n' ∧ rest.take 2 = ['\n', '\n']) || hasTripleNl rest) := rfl

/-- The quad-asterisk condition transfers across an append whose
separator is not an asterisk. -/
theorem take3_star_append (x y : List Char) (t : Char) (ht : t ≠ '*') :
    ((x ++ t :: y).take 3 = ['*', '*', '*']) ↔ (x.take 3 = ['*', '*', '*']) := by
  rcases x with _ | ⟨a, _ | ⟨b, _ | ⟨c, x'⟩⟩⟩
  · rw [List.nil_append, show ((t :: y).take 3) = t :: y.take 2 from rfl]
    simp [ht]
  · rw [show (([a] ++ t :: y).take 3) = a :: t :: y.take 1 from rfl]
    simp [ht]
  · rw [show (([a, b] ++ t :: y).take 3) = [a, b, t] from rfl]
    simp [ht]
  · rw [show ((a :: b :: c :: x' ++ t :: y).take 3) = [a, b, c] from rfl,
      show ((a :: b :: c :: x').take 3) = [a, b, c] from rfl]

theorem hasQuadAst_sep (x y : List Char) (t : Char) (ht : t ≠ '*') :
    hasQuadAst (x ++ t :: y) = (hasQuadAst x || hasQuadAst y) := by
  induction x with
  | nil =>
    rw [List.nil_append, hasQuadAst_cons]
    simp [ht, hasQuadAst]
  | cons a x' ih =>
    rw [List.cons_append, hasQuadAst_cons, ih, hasQuadAst_cons]
    have heq : decide (a = '*' ∧ (x' ++ t :: y).take 3 = ['*', '*', '*']) =
        decide (a = '*' ∧ x'.take 3 = ['*', '*', '*']) :=
      decide_eq_decide.mpr (and_congr_right (fun _ => take3_star_append x' y t ht))
    rw [heq, Bool.or_assoc]

theorem hasQuadAst_append_first (x y : List Char)
    (h : hasQuadAst (x ++ y) = false) : hasQuadAst x = false := by
  induction x with
  | nil => rfl
  | cons a x' ih =>
    rw [List.cons_append, hasQuadAst_cons, Bool.or_eq_false_iff] at h
    rw [hasQuadAst_cons, Bool.or_eq_false_iff]
    refine ⟨?_, ih h.2⟩
    by_cases hc : x'.take 3 = ['*', '*', '*']
    · have hlen : 3 ≤ x'.length := by
        have := congrArg List.length hc
        rw [List.length_take] at this
        simp at this
        omega
      rw [show (x' ++ y).take 3 = x'.take 3 from List.take_append_of_le_length hlen] at h
      simp [hc] at h
      simpa [hc] using h.1
    · simp [hc]

theorem head?_dot_append (x y : List Char) (t : Char) (ht : t ≠ '.') :
    ((x ++ t :: y).head? = some '.') ↔ (x.head? = some '.') := by
  cases x with
  | nil => simp [ht]
  | cons a x' => simp

theorem hasDigitDot_sep (x y : List Char) (t : Char) (ht1 : t.isDigit = false)
    (ht2 : t ≠ '.') :
    hasDigitDot (x ++ t :: y) = (hasDigitDot x || hasDigitDot y) := by
  induction x with
  | nil =>
    rw [List.nil_append, hasDigitDot_cons]
    simp [ht1, hasDigitDot]
  | cons a x' ih =>
    rw [List.cons_append, hasDigitDot_cons, ih, hasDigitDot_cons]
    have heq : decide ((x' ++ t :: y).head? = some '.') =
        decide (x'.head? = some '.') :=
      decide_eq_decide.mpr (head?_dot_append x' y t ht2)
    rw [heq, Bool.or_assoc]

theorem hasDigitDot_append_first (x y : List Char)
    (h : hasDigitDot (x ++ y) = false) : hasDigitDot x = false := by
  induction x with
  | nil => rfl
  | cons a x' ih =>
    rw [List.cons_append, hasDigitDot_cons, Bool.or_eq_false_iff] at h
    rw [hasDigitDot_cons, Bool.or_eq_false_iff]
    refine ⟨?_, ih h.2⟩
    by_cases hc : x'.head? = some '.'
    · have hap : (x' ++ y).head? = some '.' := by
        cases x' with
        | nil => simp at hc
        | cons b x'' => simpa using hc
      have h1 := h.1
      rw [hap] at h1
      have h2 : a.isDigit = false := by
        cases hd : a.isDigit
        · rfl
        · rw [hd] at h1
          simp at h1
      simp [h2]
    · simp [hc]

theorem hasTripleNl_append_right (x y : List Char)
    (h : hasTripleNl (x ++ y) = false) : hasTripleNl y = false := by
  induction x with
  | nil => simpa using h
  | cons a x' ih =>
    rw [List.cons_append, hasTripleNl_cons, Bool.or_eq_false_iff] at h
    exact ih h.2

theorem hasTripleNl_strip (x y : List Char) (hx : ∀ c ∈ x, c ≠ '\n') :
    hasTripleNl (x ++ y) = hasTripleNl y := by
  induction x with
  | nil => simp
  | cons a x' ih =>
    rw [List.cons_append, hasTripleNl_cons]
    have ha : a ≠ '\n' := hx a (by simp)
    rw [ih (fun c hc => hx c (by simp [hc]))]
    simp [ha]

theorem hasTripleNl_of_no_nl (x : List Char) (hx : ∀ c ∈ x, c ≠ '\n') :
    hasTripleNl x = false := by
  have := hasTripleNl_strip x [] hx
  simpa using this

/-- Rule 1 leaves any text without a quadruple-asterisk run unchanged. -/
theorem fixQuadAst_eq_self (l : List Char) (h : hasQuadAst l = false) :
    fixQuadAst l = l := by
  induction l using fixQuadAst.induct with
  | case1 rest ih =>
    exfalso
    rw [hasQuadAst_cons] at h
    simp at h
  | case2 c rest hne ih =>
    rw [fixQuadAst.eq_2 c rest hne]
    rw [hasQuadAst_cons, Bool.or_eq_false_iff] at h
    rw [ih h.2]
  | case3 => rfl

/-- Rule 3 leaves any text without a triple-newline run unchanged
(generalized over the count of newlines already read). -/
theorem cleanNlAux_eq_self (l : List Char) :
    ∀ n : Nat, n ≤ 2 → hasTripleNl (List.replicate n '\n' ++ l) = false →
      cleanNlAux n l = List.replicate n '\n' ++ l := by
  induction l with
  | nil =>
    intro n hn h
    simp [cleanNlAux, Nat.min_eq_left hn]
  | cons c rest ih =>
    intro n hn h
    by_cases hc : c = '\n'
    · subst hc
      have hrepl : List.replicate n '\n' ++ '\n' :: rest =
          List.replicate (n + 1) '\n' ++ rest := by
        rw [List.replicate_succ' n '\n']
        simp
      have hn1 : n + 1 ≤ 2 := by
        by_contra hgt
        have hn2 : n = 2 := by omega
        subst hn2
        rw [show List.replicate 2 '\n' ++ '\n' :: rest = '\n' :: '\n' :: '\n' :: rest from rfl,
          hasTripleNl_cons] at h
        simp at h
      rw [show cleanNlAux n ('\n' :: rest) = cleanNlAux (n + 1) rest from by
        simp [cleanNlAux]]
      rw [ih (n + 1) hn1 (by rw [← hrepl]; exact h), hrepl]
    · have h2 : hasTripleNl rest = false := by
        apply hasTripleNl_append_right (List.replicate n '\n' ++ [c])
        rw [List.append_assoc]
        simpa using h
      rw [show cleanNlAux n (c :: rest) =
          List.replicate (min n 2) '\n' ++ c :: cleanNlAux 0 rest from by
        simp [cleanNlAux, hc]]
      rw [show cleanNlAux 0 rest = cleanNlAux 0 rest from rfl]
      have h3 := ih 0 (by omega) (by simpa using h2)
      simp only [List.replicate_zero, List.nil_append] at h3
      rw [h3, Nat.min_eq_left hn]

/-- Rule 3 leaves any text without a triple-newline run unchanged. -/
theorem cleanNewlines_eq_self (l : List Char) (h : hasTripleNl l = false) :
    cleanNewlines l = l := by
  have h2 := cleanNlAux_eq_self l 0 (by omega) (by simpa using h)
  simpa [cleanNewlines] using h2

/-- Either the line matches `^(.+):$` — it splits as `w ++ [':']` with
`w` nonempty and is rewritten to `**w:**` — or rule 4 leaves it alone. -/
theorem boldHeaderLine_cases (line : List Char) :
    (∃ w, w ≠ [] ∧ line = w ++ [':'] ∧
      boldHeaderLine line = ('*' :: '*' :: w) ++ [':', '*', '*']) ∨
    boldHeaderLine line = line := by
  cases hrev : line.reverse with
  | nil =>
    right
    unfold boldHeaderLine
    rw [hrev]
  | cons b bs =>
    cases bs with
    | nil =>
      right
      unfold boldHeaderLine
      rw [hrev]
    | cons c cs =>
      by_cases hb : b = ':'
      · left
        subst hb
        refine ⟨(c :: cs).reverse, by simp, ?_, ?_⟩
        · conv_lhs => rw [← List.reverse_reverse line, hrev]
          simp
        · unfold boldHeaderLine
          rw [hrev]
          simp
      · right
        unfold boldHeaderLine
        rw [hrev]
        simp [hb]

theorem boldHeaderLine_nil : boldHeaderLine [] = [] := rfl

theorem boldHeaderLine_ne_nil (line : List Char) (h : line ≠ []) :
    boldHeaderLine line ≠ [] := by
  rcases boldHeaderLine_cases line with ⟨w, hw, hl, hb⟩ | hb
  · rw [hb]
    simp
  · rw [hb]
    exact h

theorem boldHeaderLine_eq_nil_iff (line : List Char) :
    boldHeaderLine line = [] ↔ line = [] := by
  constructor
  · intro h
    by_contra hne
    exact boldHeaderLine_ne_nil line hne h
  · intro h
    rw [h]
    rfl

theorem boldHeaderLine_chars (line : List Char)
    (h : ∀ c ∈ line, isLineTerm c = false) :
    ∀ c ∈ boldHeaderLine line, isLineTerm c = false := by
  rcases boldHeaderLine_cases line with ⟨w, hw, hl, hb⟩ | hb
  · rw [hb]
    intro c hc
    simp only [List.mem_append, List.mem_cons, List.not_mem_nil, or_false] at hc
    have h2 : c = '*' ∨ c = ':' ∨ c ∈ w := by tauto
    rcases h2 with hc2 | hc2 | hc2
    · rw [hc2]; decide
    · rw [hc2]; decide
    · exact h c (by rw [hl]; exact List.mem_append_left _ hc2)
  · rw [hb]
    exact h

theorem boldHeaderLine_head? (line : List Char) :
    (boldHeaderLine line).head? = some '*' ∨
      (boldHeaderLine line).head? = line.head? := by
  rcases boldHeaderLine_cases line with ⟨w, hw, hl, hb⟩ | hb
  · left
    rw [hb]
    rfl
  · right
    rw [hb]

theorem boldHeaderLine_getLast? (line : List Char) :
    (boldHeaderLine line).getLast? = some '*' ∨
      (boldHeaderLine line).getLast? = line.getLast? := by
  rcases boldHeaderLine_cases line with ⟨w, hw, hl, hb⟩ | hb
  · left
    rw [hb, List.getLast?_append]
    rfl
  · right
    rw [hb]

theorem boldHeaderLine_not_colon (line : List Char)
    (h : line.getLast? ≠ some ':') : boldHeaderLine line = line := by
  rcases boldHeaderLine_cases line with ⟨w, hw, hl, hb⟩ | hb
  · exfalso
    apply h
    rw [hl]
    exact List.getLast?_concat w
  · exact hb

theorem boldHeaderLine_idem (line : List Char) :
    boldHeaderLine (boldHeaderLine line) = boldHeaderLine line := by
  rcases boldHeaderLine_cases line with ⟨w, hw, hl, hb⟩ | hb
  · rw [hb]
    apply boldHeaderLine_not_colon
    rw [List.getLast?_append]
    intro hcontra
    simp at hcontra
  · rw [hb, hb]

/-- The line-accumulator scan of rule 4, expressed by splitting off the
first line. -/
theorem mbhAux_eq (l : List Char) : ∀ acc : List Char,
    mbhAux acc l =
      boldHeaderLine (acc.reverse ++ l.takeWhile (fun c => !isLineTerm c)) ++
        (match l.dropWhile (fun c => !isLineTerm c) with
         | [] => []
         | t :: r => t :: mbhAux [] r) := by
  induction l with
  | nil =>
    intro acc
    simp [mbhAux]
  | cons c rest ih =>
    intro acc
    by_cases hterm : isLineTerm c = true
    · rw [show mbhAux acc (c :: rest) =
          boldHeaderLine acc.reverse ++ c :: mbhAux [] rest from by
        simp [mbhAux, hterm]]
      rw [List.takeWhile_cons_of_neg (by simp [hterm]),
        List.dropWhile_cons_of_neg (by simp [hterm])]
      simp
    · rw [show mbhAux acc (c :: rest) = mbhAux (c :: acc) rest from by
        simp [mbhAux, hterm]]
      rw [ih (c :: acc)]
      rw [List.takeWhile_cons_of_pos (by simp [hterm]),
        List.dropWhile_cons_of_pos (by simp [hterm])]
      simp

/-- Rule 4, expressed by splitting off the first line. -/
theorem makeBoldHeaders_eq (l : List Char) :
    makeBoldHeaders l =
      boldHeaderLine (l.takeWhile (fun c => !isLineTerm c)) ++
        (match l.dropWhile (fun c => !isLineTerm c) with
         | [] => []
         | t :: r => t :: makeBoldHeaders r) := by
  have h := mbhAux_eq l []
  simpa [makeBoldHeaders] using h

/-- The bad-header-line scan, expressed by splitting off the first line. -/
theorem hbcAux_eq (l : List Char) : ∀ acc : List Char,
    hbcAux acc l =
      (badHeaderLine (acc.reverse ++ l.takeWhile (fun c => !isLineTerm c)) ||
        (match l.dropWhile (fun c => !isLineTerm c) with
         | [] => false
         | _ :: r => hbcAux [] r)) := by
  induction l with
  | nil =>
    intro acc
    simp [hbcAux]
  | cons c rest ih =>
    intro acc
    by_cases hterm : isLineTerm c = true
    · rw [show hbcAux acc (c :: rest) =
          (badHeaderLine acc.reverse || hbcAux [] rest) from by
        simp [hbcAux, hterm]]
      rw [List.takeWhile_cons_of_neg (by simp [hterm]),
        List.dropWhile_cons_of_neg (by simp [hterm])]
      simp
    · rw [show hbcAux acc (c :: rest) = hbcAux (c :: acc) rest from by
        simp [hbcAux, hterm]]
      rw [ih (c :: acc)]
      rw [List.takeWhile_cons_of_pos (by simp [hterm]),
        List.dropWhile_cons_of_pos (by simp [hterm])]
      simp

theorem hasBoldColonLine_eq (l : List Char) :
    hasBoldColonLine l =
      (badHeaderLine (l.takeWhile (fun c => !isLineTerm c)) ||
        (match l.dropWhile (fun c => !isLineTerm c) with
         | [] => false
         | _ :: r => hasBoldColonLine r)) := by
  have h := hbcAux_eq l []
  simpa [hasBoldColonLine] using h

/-- Bolding a line with no quadruple asterisk that does not both start
with two asterisks and end with a colon produces no quadruple asterisk. -/
theorem hasQuadAst_boldHeaderLine (line : List Char) (h1 : hasQuadAst line = false)
    (h2 : badHeaderLine line = false) : hasQuadAst (boldHeaderLine line) = false := by
  rcases boldHeaderLine_cases line with ⟨w, hw, hl, hb⟩ | hb
  · rw [hb]
    have hq : hasQuadAst w = false := by
      apply hasQuadAst_append_first w [':']
      rw [← hl]
      exact h1
    have htk : ¬ w.take 2 = ['*', '*'] := by
      intro htk
      have hwlen : 2 ≤ w.length := by
        have h3 := congrArg List.length htk
        rw [List.length_take] at h3
        simp at h3
        omega
      have hlt : line.take 2 = ['*', '*'] := by
        rw [hl, List.take_append_of_le_length hwlen, htk]
      have hgl : line.getLast? = some ':' := by
        rw [hl]
        exact List.getLast?_concat w
      have h4 : badHeaderLine line = true := by
        simp [badHeaderLine, hlt, hgl]
      rw [h2] at h4
      exact absurd h4 (by simp)
    rcases w with _ | ⟨a, _ | ⟨b, w'⟩⟩
    · exact absurd rfl hw
    · simp [hasQuadAst]
    · have hab : ¬(a = '*' ∧ b = '*') := by
        rintro ⟨ha, hb'⟩
        exact htk (by rw [ha, hb']; rfl)
      rw [show ('*' :: '*' :: (a :: b :: w') ++ [':', '*', '*']) =
          '*' :: '*' :: a :: b :: (w' ++ [':', '*', '*']) from by simp]
      rw [hasQuadAst_cons, hasQuadAst_cons]
      have hc1 : decide ('*' = '*' ∧
          ('*' :: a :: b :: (w' ++ [':', '*', '*'])).take 3 = ['*', '*', '*']) = false := by
        rw [decide_eq_false_iff_not]
        rintro ⟨-, hteq⟩
        rw [show (('*' :: a :: b :: (w' ++ [':', '*', '*'])).take 3) = ['*', a, b] from rfl]
          at hteq
        injection hteq with hx1 hteq
        injection hteq with hx2 hteq
        injection hteq with hx3 hteq
        exact hab ⟨hx2, hx3⟩
      have hc2 : decide ('*' = '*' ∧
          (a :: b :: (w' ++ [':', '*', '*'])).take 3 = ['*', '*', '*']) = false := by
        rw [decide_eq_false_iff_not]
        rintro ⟨-, hteq⟩
        rw [show ((a :: b :: (w' ++ [':', '*', '*'])).take 3) =
            a :: b :: ((w' ++ [':', '*', '*']).take 1) from rfl] at hteq
        injection hteq with hx1 hteq
        injection hteq with hx2 hteq
        exact hab ⟨hx1, hx2⟩
      rw [hc1, hc2]
      rw [show a :: b :: (w' ++ [':', '*', '*']) =
          (a :: b :: w') ++ ':' :: ['*', '*'] from by simp]
      rw [hasQuadAst_sep _ _ ':' (by decide), hq]
      rfl
  · rw [hb]
    exact h1

/-- Bolding a line without a digit-period sequence produces none. -/
theorem hasDigitDot_boldHeaderLine (line : List Char)
    (h1 : hasDigitDot line = false) : hasDigitDot (boldHeaderLine line) = false := by
  rcases boldHeaderLine_cases line with ⟨w, hw, hl, hb⟩ | hb
  · rw [hb]
    have hdw : hasDigitDot w = false := by
      have h2 : hasDigitDot (w ++ ':' :: []) = false := by
        rw [show w ++ ':' :: [] = w ++ [':'] from rfl, ← hl]
        exact h1
      rw [hasDigitDot_sep w [] ':' (by decide) (by decide)] at h2
      exact (Bool.or_eq_false_iff.mp h2).1
    rw [show ('*' :: '*' :: w ++ [':', '*', '*']) =
        '*' :: '*' :: (w ++ ':' :: ['*', '*']) from by simp]
    rw [hasDigitDot_cons, hasDigitDot_cons]
    rw [hasDigitDot_sep w ['*', '*'] ':' (by decide) (by decide), hdw]
    simp [hasDigitDot]
  · rw [hb]
    exact h1

/-- Characters of the first line satisfy the not-a-terminator predicate. -/
theorem takeWhile_chars (l : List Char) :
    ∀ c ∈ l.takeWhile (fun c => !isLineTerm c), isLineTerm c = false := by
  intro c hc
  have h := List.mem_takeWhile_imp hc
  simpa using h

/-- Rule 4 creates no quadruple asterisk on text with none and no line
that both starts with two asterisks and ends with a colon. -/
theorem hasQuadAst_makeBoldHeaders (l : List Char) (h1 : hasQuadAst l = false)
    (h2 : hasBoldColonLine l = false) : hasQuadAst (makeBoldHeaders l) = false := by
  have H : ∀ (n : Nat) (l : List Char), l.length ≤ n → hasQuadAst l = false →
      hasBoldColonLine l = false → hasQuadAst (makeBoldHeaders l) = false := by
    intro n
    induction n with
    | zero =>
      intro l hlen _ _
      have h0 : l = [] := List.length_eq_zero.mp (Nat.le_zero.mp hlen)
      subst h0
      rfl
    | succ n ih =>
      intro l hlen h1 h2
      rw [makeBoldHeaders_eq l]
      rw [hasBoldColonLine_eq l] at h2
      cases hdrop : l.dropWhile (fun c => !isLineTerm c) with
      | nil =>
        simp only [hdrop] at h2 ⊢
        have htw : l.takeWhile (fun c => !isLineTerm c) = l := by
          have h3 := List.takeWhile_append_dropWhile (fun c => !isLineTerm c) l
          rw [hdrop, List.append_nil] at h3
          exact h3
        rw [htw, List.append_nil]
        rw [htw] at h2
        exact hasQuadAst_boldHeaderLine l h1 (by simpa using h2)
      | cons t r =>
        have ht : isLineTerm t = true := by
          have h3 := List.head?_dropWhile_not (fun c => !isLineTerm c) l
          rw [hdrop] at h3
          simpa using h3
        obtain ⟨hstar, -, -, -, -⟩ := lineTerm_facts t ht
        have hsplit : l = l.takeWhile (fun c => !isLineTerm c) ++ t :: r := by
          conv_lhs => rw [← List.takeWhile_append_dropWhile (fun c => !isLineTerm c) l, hdrop]
        rw [hsplit, hasQuadAst_sep _ _ t hstar, Bool.or_eq_false_iff] at h1
        simp only [hdrop] at h2
        rw [Bool.or_eq_false_iff] at h2
        simp only [hdrop]
        rw [hasQuadAst_sep _ _ t hstar, Bool.or_eq_false_iff]
        have hrlen : r.length ≤ n := by
          have h4 := congrArg List.length hsplit
          simp only [List.length_append, List.length_cons] at h4
          omega
        exact ⟨hasQuadAst_boldHeaderLine _ h1.1 h2.1, ih r hrlen h1.2 h2.2⟩
  exact H l.length l (Nat.le_refl _) h1 h2

/-- Rule 4 creates no digit-period sequence on text with none. -/
theorem hasDigitDot_makeBoldHeaders (l : List Char) (h1 : hasDigitDot l = false) :
    hasDigitDot (makeBoldHeaders l) = false := by
  have H : ∀ (n : Nat) (l : List Char), l.length ≤ n → hasDigitDot l = false →
      hasDigitDot (makeBoldHeaders l) = false := by
    intro n
    induction n with
    | zero =>
      intro l hlen _
      have h0 : l = [] := List.length_eq_zero.mp (Nat.le_zero.mp hlen)
      subst h0
      rfl
    | succ n ih =>
      intro l hlen h1
      rw [makeBoldHeaders_eq l]
      cases hdrop : l.dropWhile (fun c => !isLineTerm c) with
      | nil =>
        simp only [hdrop]
        have htw : l.takeWhile (fun c => !isLineTerm c) = l := by
          have h3 := List.takeWhile_append_dropWhile (fun c => !isLineTerm c) l
          rw [hdrop, List.append_nil] at h3
          exact h3
        rw [htw, List.append_nil]
        exact hasDigitDot_boldHeaderLine l h1
      | cons t r =>
        have ht : isLineTerm t = true := by
          have h3 := List.head?_dropWhile_not (fun c => !isLineTerm c) l
          rw [hdrop] at h3
          simpa using h3
        obtain ⟨-, hdig, hdot, -, -⟩ := lineTerm_facts t ht
        have hsplit : l = l.takeWhile (fun c => !isLineTerm c) ++ t :: r := by
          conv_lhs => rw [← List.takeWhile_append_dropWhile (fun c => !isLineTerm c) l, hdrop]
        rw [hsplit, hasDigitDot_sep _ _ t hdig hdot, Bool.or_eq_false_iff] at h1
        simp only [hdrop]
        rw [hasDigitDot_sep _ _ t hdig hdot, Bool.or_eq_false_iff]
        have hrlen : r.length ≤ n := by
          have h4 := congrArg List.length hsplit
          simp only [List.length_append, List.length_cons] at h4
          omega
        exact ⟨hasDigitDot_boldHeaderLine _ h1.1, ih r hrlen h1.2⟩
  exact H l.length l (Nat.le_refl _) h1

theorem head?_append_left (x y : List Char) (h : x ≠ []) :
    (x ++ y).head? = x.head? := by
  cases x with
  | nil => exact absurd rfl h
  | cons a t => rfl

theorem take_one_shape (l : List Char) (a : Char) (h : l.take 1 = [a]) :
    ∃ r, l = a :: r := by
  cases l with
  | nil => simp at h
  | cons x xs =>
    rw [show ((x :: xs).take 1) = [x] from rfl] at h
    injection h with h1 _
    exact ⟨xs, by rw [h1]⟩

theorem take_two_shape (l : List Char) (a b : Char) (h : l.take 2 = [a, b]) :
    ∃ r, l = a :: b :: r := by
  cases l with
  | nil => simp at h
  | cons x xs =>
    cases xs with
    | nil => simp at h
    | cons y ys =>
      rw [show ((x :: y :: ys).take 2) = [x, y] from rfl] at h
      injection h with h1 h2
      injection h2 with h2 _
      exact ⟨ys, by rw [h1, h2]⟩

/-- Characters of a bolded first line are never line terminators, hence
never newlines. -/
theorem boldHeaderLine_takeWhile_chars (l : List Char) :
    ∀ c ∈ boldHeaderLine (l.takeWhile (fun c => !isLineTerm c)), isLineTerm c = false :=
  boldHeaderLine_chars _ (takeWhile_chars l)

/-- If rule 4's output begins with a newline, so did its input. -/
theorem makeBoldHeaders_take1_nl (r : List Char)
    (h : (makeBoldHeaders r).take 1 = ['\n']) : r.take 1 = ['\n'] := by
  rw [makeBoldHeaders_eq r] at h
  cases hdrop : r.dropWhile (fun c => !isLineTerm c) with
  | nil =>
    exfalso
    simp only [hdrop, List.append_nil] at h
    obtain ⟨z, hz⟩ := take_one_shape _ _ h
    have hmem : '\n' ∈ boldHeaderLine (r.takeWhile (fun c => !isLineTerm c)) := by
      rw [hz]
      simp
    exact absurd (boldHeaderLine_takeWhile_chars r '\n' hmem) (by decide)
  | cons t r' =>
    simp only [hdrop] at h
    by_cases htw : r.takeWhile (fun c => !isLineTerm c) = []
    · rw [htw, boldHeaderLine_nil, List.nil_append] at h
      have ht : t = '\n' := by
        rw [show ((t :: makeBoldHeaders r').take 1) = [t] from rfl] at h
        simpa using h
      have hr : r = t :: r' := by
        have h9 := List.takeWhile_append_dropWhile (fun c => !isLineTerm c) r
        rw [htw, hdrop, List.nil_append] at h9
        exact h9.symm
      rw [hr, ht]
      rfl
    · exfalso
      obtain ⟨z, zs, hbz⟩ : ∃ z zs,
          boldHeaderLine (r.takeWhile (fun c => !isLineTerm c)) = z :: zs := by
        cases hx : boldHeaderLine (r.takeWhile (fun c => !isLineTerm c)) with
        | nil => exact absurd hx (boldHeaderLine_ne_nil _ htw)
        | cons z zs => exact ⟨z, zs, rfl⟩
      rw [hbz] at h
      rw [show (((z :: zs) ++ t :: makeBoldHeaders r').take 1) = [z] from rfl] at h
      injection h with h1 _
      have hmem : '\n' ∈ boldHeaderLine (r.takeWhile (fun c => !isLineTerm c)) := by
        rw [hbz, h1]
        simp
      exact absurd (boldHeaderLine_takeWhile_chars r '\n' hmem) (by decide)

/-- If rule 4's output begins with two newlines, so did its input. -/
theorem makeBoldHeaders_take2_nl (r : List Char)
    (h : (makeBoldHeaders r).take 2 = ['\n', '\n']) : r.take 2 = ['\n', '\n'] := by
  rw [makeBoldHeaders_eq r] at h
  cases hdrop : r.dropWhile (fun c => !isLineTerm c) with
  | nil =>
    exfalso
    simp only [hdrop, List.append_nil] at h
    obtain ⟨z, hz⟩ := take_two_shape _ _ _ h
    have hmem : '\n' ∈ boldHeaderLine (r.takeWhile (fun c => !isLineTerm c)) := by
      rw [hz]
      simp
    exact absurd (boldHeaderLine_takeWhile_chars r '\n' hmem) (by decide)
  | cons t r' =>
    simp only [hdrop] at h
    by_cases htw : r.takeWhile (fun c => !isLineTerm c) = []
    · rw [htw, boldHeaderLine_nil, List.nil_append] at h
      rw [show ((t :: makeBoldHeaders r').take 2) =
          t :: (makeBoldHeaders r').take 1 from rfl] at h
      injection h with h1 h2
      have hr1 : r'.take 1 = ['\n'] := makeBoldHeaders_take1_nl r' h2
      have hr : r = t :: r' := by
        have h9 := List.takeWhile_append_dropWhile (fun c => !isLineTerm c) r
        rw [htw, hdrop, List.nil_append] at h9
        exact h9.symm
      rw [hr, show ((t :: r').take 2) = t :: r'.take 1 from rfl, h1, hr1]
    · exfalso
      obtain ⟨z, zs, hbz⟩ : ∃ z zs,
          boldHeaderLine (r.takeWhile (fun c => !isLineTerm c)) = z :: zs := by
        cases hx : boldHeaderLine (r.takeWhile (fun c => !isLineTerm c)) with
        | nil => exact absurd hx (boldHeaderLine_ne_nil _ htw)
        | cons z zs => exact ⟨z, zs, rfl⟩
      rw [hbz] at h
      rw [show (((z :: zs) ++ t :: makeBoldHeaders r').take 2) =
          z :: ((zs ++ t :: makeBoldHeaders r').take 1) from rfl] at h
      injection h with h1 _
      have hmem : '\n' ∈ boldHeaderLine (r.takeWhile (fun c => !isLineTerm c)) := by
        rw [hbz, h1]
        simp
      exact absurd (boldHeaderLine_takeWhile_chars r '\n' hmem) (by decide)

/-- Rule 4 creates no triple-newline run on text with none. -/
theorem hasTripleNl_makeBoldHeaders (l : List Char) (h : hasTripleNl l = false) :
    hasTripleNl (makeBoldHeaders l) = false := by
  have H : ∀ (n : Nat) (l : List Char), l.length ≤ n → hasTripleNl l = false →
      hasTripleNl (makeBoldHeaders l) = false := by
    intro n
    induction n with
    | zero =>
      intro l hlen _
      have h0 : l = [] := List.length_eq_zero.mp (Nat.le_zero.mp hlen)
      subst h0
      rfl
    | succ n ih =>
      intro l hlen h1
      rw [makeBoldHeaders_eq l]
      have hbhlchars : ∀ c ∈ boldHeaderLine (l.takeWhile (fun c => !isLineTerm c)),
          c ≠ '\n' := by
        intro c hc hcn
        have := boldHeaderLine_takeWhile_chars l c hc
        rw [hcn] at this
        exact absurd this (by decide)
      have htwchars : ∀ c ∈ l.takeWhile (fun c => !isLineTerm c), c ≠ '\n' := by
        intro c hc hcn
        have := takeWhile_chars l c hc
        rw [hcn] at this
        exact absurd this (by decide)
      cases hdrop : l.dropWhile (fun c => !isLineTerm c) with
      | nil =>
        simp only [hdrop, List.append_nil]
        exact hasTripleNl_of_no_nl _ hbhlchars
      | cons t r =>
        simp only [hdrop]
        have hsplit : l = l.takeWhile (fun c => !isLineTerm c) ++ t :: r := by
          conv_lhs => rw [← List.takeWhile_append_dropWhile (fun c => !isLineTerm c) l, hdrop]
        have h2 : hasTripleNl (t :: r) = false := by
          rw [hsplit, hasTripleNl_strip _ _ htwchars] at h1
          exact h1
        rw [hasTripleNl_cons, Bool.or_eq_false_iff] at h2
        rw [hasTripleNl_strip _ _ hbhlchars, hasTripleNl_cons, Bool.or_eq_false_iff]
        have hrlen : r.length ≤ n := by
          have h4 := congrArg List.length hsplit
          simp only [List.length_append, List.length_cons] at h4
          omega
        refine ⟨?_, ih r hrlen h2.2⟩
        rw [decide_eq_false_iff_not]
        rintro ⟨htn, htk⟩
        have hrk : r.take 2 = ['\n', '\n'] := makeBoldHeaders_take2_nl r htk
        have := decide_eq_false_iff_not.mp h2.1
        exact this ⟨htn, hrk⟩
  exact H l.length l (Nat.le_refl _) h

/-- Rule 4 is idempotent. -/
theorem makeBoldHeaders_idem (l : List Char) :
    makeBoldHeaders (makeBoldHeaders l) = makeBoldHeaders l := by
  have H : ∀ (n : Nat) (l : List Char), l.length ≤ n →
      makeBoldHeaders (makeBoldHeaders l) = makeBoldHeaders l := by
    intro n
    induction n with
    | zero =>
      intro l hlen
      have h0 : l = [] := List.length_eq_zero.mp (Nat.le_zero.mp hlen)
      subst h0
      rfl
    | succ n ih =>
      intro l hlen
      conv_lhs => rw [makeBoldHeaders_eq l]
      conv_rhs => rw [makeBoldHeaders_eq l]
      have hbhlpred : ∀ c ∈ boldHeaderLine (l.takeWhile (fun c => !isLineTerm c)),
          (fun c => !isLineTerm c) c = true := by
        intro c hc
        simp [boldHeaderLine_takeWhile_chars l c hc]
      cases hdrop : l.dropWhile (fun c => !isLineTerm c) with
      | nil =>
        simp only [hdrop, List.append_nil]
        have hdrop2 : (boldHeaderLine
            (l.takeWhile (fun c => !isLineTerm c))).dropWhile (fun c => !isLineTerm c) = [] :=
          List.dropWhile_eq_nil_iff.mpr hbhlpred
        rw [makeBoldHeaders_eq]
        simp only [hdrop2, List.append_nil]
        have htk2 : (boldHeaderLine
            (l.takeWhile (fun c => !isLineTerm c))).takeWhile (fun c => !isLineTerm c) =
            boldHeaderLine (l.takeWhile (fun c => !isLineTerm c)) := by
          have h3 := List.takeWhile_append_dropWhile (fun c => !isLineTerm c)
            (boldHeaderLine (l.takeWhile (fun c => !isLineTerm c)))
          rw [hdrop2, List.append_nil] at h3
          exact h3
        rw [htk2, boldHeaderLine_idem]
      | cons t r =>
        simp only [hdrop]
        have ht : isLineTerm t = true := by
          have h3 := List.head?_dropWhile_not (fun c => !isLineTerm c) l
          rw [hdrop] at h3
          simpa using h3
        rw [makeBoldHeaders_eq]
        rw [List.takeWhile_append_of_pos hbhlpred,
          List.dropWhile_append_of_pos hbhlpred]
        rw [List.takeWhile_cons_of_neg (by simp [ht]),
          List.dropWhile_cons_of_neg (by simp [ht])]
        simp only [List.append_nil]
        have hrlen : r.length ≤ n := by
          have hsplit : l = l.takeWhile (fun c => !isLineTerm c) ++ t :: r := by
            conv_lhs => rw [← List.takeWhile_append_dropWhile (fun c => !isLineTerm c) l,
              hdrop]
          have h4 := congrArg List.length hsplit
          simp only [List.length_append, List.length_cons] at h4
          omega
        rw [boldHeaderLine_idem, ih r hrlen]
  exact H l.length l (Nat.le_refl _)

theorem ws_of_lineTerm (c : Char) (h : isLineTerm c = true) : isJsWs c = true :=
  (lineTerm_facts c h).2.2.2.2

/-- The trim of a text with no leading or trailing JS whitespace is the
text itself. -/
theorem trimList_eq_self (l : List Char)
    (hh : ∀ c, l.head? = some c → isJsWs c = false)
    (hl : ∀ c, l.getLast? = some c → isJsWs c = false) : trimList l = l := by
  cases l with
  | nil => rfl
  | cons a rest =>
    have ha : isJsWs a = false := hh a rfl
    unfold trimList
    rw [List.dropWhile_cons_of_neg (by simp [ha])]
    obtain ⟨z, zs, hrev⟩ : ∃ z zs, (a :: rest).reverse = z :: zs := by
      cases hx : (a :: rest).reverse with
      | nil => exact absurd (List.reverse_eq_nil_iff.mp hx) (by simp)
      | cons z zs => exact ⟨z, zs, rfl⟩
    have hz : (a :: rest).getLast? = some z := by
      rw [← List.head?_reverse, hrev]
      rfl
    have hzw : isJsWs z = false := hl z hz
    rw [hrev, List.dropWhile_cons_of_neg (by simp [hzw]), ← hrev, List.reverse_reverse]

theorem makeBoldHeaders_ne_nil (l : List Char) (h : l ≠ []) :
    makeBoldHeaders l ≠ [] := by
  rw [makeBoldHeaders_eq l]
  cases hdrop : l.dropWhile (fun c => !isLineTerm c) with
  | nil =>
    have htw : l.takeWhile (fun c => !isLineTerm c) = l := by
      have h3 := List.takeWhile_append_dropWhile (fun c => !isLineTerm c) l
      rw [hdrop, List.append_nil] at h3
      exact h3
    simp only [hdrop, List.append_nil]
    rw [htw]
    exact boldHeaderLine_ne_nil l h
  | cons t r =>
    simp only [hdrop]
    simp

/-- Rule 4 keeps the head free of JS whitespace when the input head is. -/
theorem makeBoldHeaders_head (l : List Char)
    (hh : ∀ c, l.head? = some c → isJsWs c = false) :
    ∀ c, (makeBoldHeaders l).head? = some c → isJsWs c = false := by
  cases l with
  | nil =>
    intro c hc
    exact absurd hc (by simp [makeBoldHeaders, mbhAux, boldHeaderLine_nil])
  | cons a rest =>
    have ha : isJsWs a = false := hh a rfl
    have haterm : isLineTerm a = false := by
      cases hx : isLineTerm a
      · rfl
      · exact absurd (ws_of_lineTerm a hx) (by simp [ha])
    have htw : (a :: rest).takeWhile (fun c => !isLineTerm c) =
        a :: rest.takeWhile (fun c => !isLineTerm c) :=
      List.takeWhile_cons_of_pos (by simp [haterm])
    have htwne : (a :: rest).takeWhile (fun c => !isLineTerm c) ≠ [] := by
      rw [htw]
      simp
    intro c hc
    rw [makeBoldHeaders_eq] at hc
    rw [head?_append_left _ _ (boldHeaderLine_ne_nil _ htwne)] at hc
    rcases boldHeaderLine_head? ((a :: rest).takeWhile (fun c => !isLineTerm c)) with hx | hx
    · rw [hx] at hc
      have : c = '*' := (Option.some.inj hc).symm
      rw [this]
      decide
    · rw [hx, htw] at hc
      have : c = a := (Option.some.inj hc).symm
      rw [this]
      exact ha

/-- Rule 4 keeps the last character free of JS whitespace when the input
last character is. -/
theorem makeBoldHeaders_getLast (l : List Char)
    (hl : ∀ c, l.getLast? = some c → isJsWs c = false) :
    ∀ c, (makeBoldHeaders l).getLast? = some c → isJsWs c = false := by
  have H : ∀ (n : Nat) (l : List Char), l.length ≤ n →
      (∀ c, l.getLast? = some c → isJsWs c = false) →
      ∀ c, (makeBoldHeaders l).getLast? = some c → isJsWs c = false := by
    intro n
    induction n with
    | zero =>
      intro l hlen _ c hc
      have h0 : l = [] := List.length_eq_zero.mp (Nat.le_zero.mp hlen)
      subst h0
      exact absurd hc (by simp [makeBoldHeaders, mbhAux, boldHeaderLine_nil])
    | succ n ih =>
      intro l hlen hlast c hc
      rw [makeBoldHeaders_eq] at hc
      cases hdrop : l.dropWhile (fun c => !isLineTerm c) with
      | nil =>
        have htw : l.takeWhile (fun c => !isLineTerm c) = l := by
          have h3 := List.takeWhile_append_dropWhile (fun c => !isLineTerm c) l
          rw [hdrop, List.append_nil] at h3
          exact h3
        rw [hdrop] at hc
        simp only [List.append_nil] at hc
        rw [htw] at hc
        rcases boldHeaderLine_getLast? l with hx | hx
        · rw [hx] at hc
          have : c = '*' := (Option.some.inj hc).symm
          rw [this]
          decide
        · rw [hx] at hc
          exact hlast c hc
      | cons t r =>
        have ht : isLineTerm t = true := by
          have h3 := List.head?_dropWhile_not (fun c => !isLineTerm c) l
          rw [hdrop] at h3
          simpa using h3
        have hsplit : l = l.takeWhile (fun c => !isLineTerm c) ++ t :: r := by
          conv_lhs => rw [← List.takeWhile_append_dropWhile (fun c => !isLineTerm c) l, hdrop]
        cases r with
        | nil =>
          exfalso
          have hglt : l.getLast? = some t := by
            rw [hsplit]
            exact List.getLast?_concat _
          have := hlast t hglt
          rw [ws_of_lineTerm t ht] at this
          exact absurd this (by simp)
        | cons b r'' =>
          simp only [hdrop] at hc
          have hmbhne : makeBoldHeaders (b :: r'') ≠ [] :=
            makeBoldHeaders_ne_nil _ (by simp)
          obtain ⟨z0, hz0⟩ : ∃ z0, (makeBoldHeaders (b :: r'')).getLast? = some z0 := by
            cases hy : makeBoldHeaders (b :: r'') with
            | nil => exact absurd hy hmbhne
            | cons z zs =>
              exact ⟨(z :: zs).getLast (by simp), List.getLast?_eq_getLast _ (by simp)⟩
          have hgl_eq : (boldHeaderLine (l.takeWhile (fun c => !isLineTerm c)) ++
              t :: makeBoldHeaders (b :: r'')).getLast? =
              (makeBoldHeaders (b :: r'')).getLast? := by
            rw [List.getLast?_append]
            rw [show (t :: makeBoldHeaders (b :: r'')).getLast? =
                (makeBoldHeaders (b :: r'')).getLast? from by
              cases hx : makeBoldHeaders (b :: r'') with
              | nil => exact absurd hx hmbhne
              | cons z zs => rw [List.getLast?_cons_cons]]
            rw [hz0]
            rfl
          rw [hgl_eq] at hc
          have hrlen : (b :: r'').length ≤ n := by
            have h4 := congrArg List.length hsplit
            simp only [List.length_append, List.length_cons] at h4 ⊢
            omega
          have hlast' : ∀ c, (b :: r'').getLast? = some c → isJsWs c = false := by
            intro d hd
            apply hlast
            rw [hsplit, List.getLast?_append]
            rw [show (t :: (b :: r'')).getLast? = (b :: r'').getLast? from
              List.getLast?_cons_cons]
            rw [hd]
            rfl
          exact ih (b :: r'') hrlen hlast' c hc
  exact H l.length l (Nat.le_refl _) hl

/-- C3 counterexample: "1. hello" has no quadruple-asterisk run and no
run of three newlines, yet a second cleanup pass is not a no-op: the
first pass produces "**1.** hello", whose "1." the numbered-list rule
rewrites again. -/
theorem c3_counterexample :
    hasQuadAst ("1. hello" : String).data = false ∧
    hasTripleNl ("1. hello" : String).data = false ∧
    cleanFormatting "1. hello" = "**1.** hello" ∧
    cleanFormatting (cleanFormatting "1. hello") ≠ cleanFormatting "1. hello" := by
  refine ⟨by decide, by decide, by decide, by decide⟩

/-- C3 (amended): the formatting cleanup is idempotent after two
applications for inputs with no quadruple-asterisk run, no run of three
or more newlines, additionally no digit immediately followed by a
period (the numbered-list rule re-fires on its own output), no line
that both starts with two asterisks and ends with a colon (bolding such
a line creates a quadruple asterisk), and no leading or trailing JS
whitespace (trimming could otherwise expose a fresh `text:` line
ending). -/
theorem c3_cleanFormatting_idem (x : String)
    (h1 : hasQuadAst x.data = false)
    (h2 : hasTripleNl x.data = false)
    (h3 : hasDigitDot x.data = false)
    (h4 : hasBoldColonLine x.data = false)
    (h5 : ∀ c, x.data.head? = some c → isJsWs c = false)
    (h6 : ∀ c, x.data.getLast? = some c → isJsWs c = false) :
    cleanFormatting (cleanFormatting x) = cleanFormatting x := by
  have e1 : fixQuadAst x.data = x.data := fixQuadAst_eq_self _ h1
  have e2 : formatNumbered x.data = x.data := formatNumbered_eq_self _ h3
  have e3 : cleanNewlines x.data = x.data := cleanNewlines_eq_self _ h2
  have hq : hasQuadAst (makeBoldHeaders x.data) = false :=
    hasQuadAst_makeBoldHeaders _ h1 h4
  have hd : hasDigitDot (makeBoldHeaders x.data) = false :=
    hasDigitDot_makeBoldHeaders _ h3
  have hn : hasTripleNl (makeBoldHeaders x.data) = false :=
    hasTripleNl_makeBoldHeaders _ h2
  have hhy : ∀ c, (makeBoldHeaders x.data).head? = some c → isJsWs c = false :=
    makeBoldHeaders_head _ h5
  have hly : ∀ c, (makeBoldHeaders x.data).getLast? = some c → isJsWs c = false :=
    makeBoldHeaders_getLast _ h6
  have htrim : trimList (makeBoldHeaders x.data) = makeBoldHeaders x.data :=
    trimList_eq_self _ hhy hly
  have hclean1 : cleanFormatting x = String.mk (makeBoldHeaders x.data) := by
    unfold cleanFormatting
    rw [e1, e2, e3, htrim]
  rw [hclean1]
  unfold cleanFormatting
  rw [show (String.mk (makeBoldHeaders x.data)).data = makeBoldHeaders x.data from rfl]
  rw [fixQuadAst_eq_self _ hq, formatNumbered_eq_self _ hd, cleanNewlines_eq_self _ hn]
  rw [makeBoldHeaders_idem, htrim]

/-- Witness for the amended C3 theorem at "Hello:\nWorld". -/
theorem c3_cleanFormatting_idem_witness :
    cleanFormatting (cleanFormatting "Hello:\nWorld") = cleanFormatting "Hello:\nWorld" :=
  c3_cleanFormatting_idem "Hello:\nWorld" (by decide) (by decide) (by decide) (by decide)
    (by
      intro c hc
      have h : 'H' = c := Option.some.inj hc
      rw [← h]
      decide)
    (by
      intro c hc
      have h : 'd' = c := Option.some.inj hc
      rw [← h]
      decide)

/-- C8: the transcript fetcher returns absence (none) on any failure
rather than propagating the error, and every 200 success response of
the handler reports has_transcript = false, transcript_length = 0 and
content_richness = "Medium" when the transcript is absent, and
has_transcript = true with content_richness = "High" whenever a
non-empty transcript is present. -/
theorem c8_transcript_quality :
    (∀ e, getVideoTranscript (Except.error e) = none) ∧
    (∀ (m : String) (pb : Except String ReqBody) (w : World) (r : AnalysisResult),
      handler m pb w = ⟨200, RespBody.success r⟩ →
      (getVideoTranscript w.transcriptItems = none →
        r.aq_has_transcript = false ∧ r.aq_transcript_length = 0 ∧
        r.aq_content_richness = "Medium") ∧
      (∀ s, getVideoTranscript w.transcriptItems = some s → s ≠ "" →
        r.aq_has_transcript = true ∧ r.aq_content_richness = "High")) := by
  refine ⟨fun e => rfl, ?_⟩
  intro m pb w r h
  unfold handler at h
  split at h
  · simp at h
  split at h
  · simp at h
  split at h
  · simp at h
  split at h
  · simp at h
  split at h
  · simp at h
  split at h
  · simp at h
  split at h
  · simp at h
  split at h
  · simp at h
  injection h with h1 h2
  injection h2 with h3
  subst h3
  constructor
  · intro ht
    simp [mkResult, ht, jsTruthyStr]
  · intro s hs hne
    simp [mkResult, hs, jsTruthyStr, hne]

/-- Witness for C8 at a concrete failing transcript fetch. -/
theorem c8_transcript_quality_witness :
    (mkResult "https://youtu.be/dQw4w9WgXcQ" "dQw4w9WgXcQ" "gemini-1.5-flash" "OUT"
        placeholderMetadata none "T0").aq_has_transcript = false ∧
    (mkResult "https://youtu.be/dQw4w9WgXcQ" "dQw4w9WgXcQ" "gemini-1.5-flash" "OUT"
        placeholderMetadata none "T0").aq_transcript_length = 0 ∧
    (mkResult "https://youtu.be/dQw4w9WgXcQ" "dQw4w9WgXcQ" "gemini-1.5-flash" "OUT"
        placeholderMetadata none "T0").aq_content_richness = "Medium" :=
  (c8_transcript_quality.2 "POST" (Except.ok reqW) worldNoTr
    (mkResult "https://youtu.be/dQw4w9WgXcQ" "dQw4w9WgXcQ" "gemini-1.5-flash" "OUT"
      placeholderMetadata none "T0") rfl).1 rfl

/-- C1 counterexample: for the same valid POST body and environment, the
server variant answers with its fixed test stub while the function
variant answers with a full analysis result, so the two entry points do
not implement the same orchestration. -/
theorem c1_counterexample :
    serverSummarize reqW worldNoTr.now =
      ⟨200, RespBody.stub
        { success := true
        , message := "Backend is working! Video analysis will be added next."
        , video_url := "https://youtu.be/dQw4w9WgXcQ"
        , video_id := "dQw4w9WgXcQ"
        , model_used := "gemini-1.5-flash"
        , timestamp := "T0" }⟩ ∧
    handler "POST" (Except.ok reqW) worldNoTr =
      ⟨200, RespBody.success (mkResult "https://youtu.be/dQw4w9WgXcQ" "dQw4w9WgXcQ"
        "gemini-1.5-flash" "OUT" placeholderMetadata none "T0")⟩ ∧
    serverSummarize reqW worldNoTr.now ≠ handler "POST" (Except.ok reqW) worldNoTr := by
  refine ⟨rfl, rfl, ?_⟩
  intro hc
  exact absurd (congrArg HttpResponse.body hc) (by decide)

/-- C1 (amended): the two entry points agree only on request validation
(missing link and invalid link produce the same 400 errors); on a valid
link the server variant returns a fixed test stub echoing the link, the
extracted id and the defaulted model name, while the function variant
runs the full orchestration and returns the analysis result. -/
theorem c1_entryPoints_amended (b : ReqBody) (now : String) (w : World)
    (hnow : w.now = now) :
    (jsTruthyStr b.youtube_link = false →
      serverSummarize b now = ⟨400, RespBody.jsonError "YouTube link is required"⟩ ∧
      handler "POST" (Except.ok b) w = ⟨400, RespBody.jsonError "YouTube link is required"⟩) ∧
    (∀ link, b.youtube_link = some link → link ≠ "" → extractVideoId link = none →
      serverSummarize b now = ⟨400, RespBody.jsonError "Invalid YouTube URL"⟩ ∧
      handler "POST" (Except.ok b) w = ⟨400, RespBody.jsonError "Invalid YouTube URL"⟩) ∧
    (∀ link vid raw, b.youtube_link = some link → link ≠ "" →
      extractVideoId link = some vid →
      w.generate (fullPrompt (effMetadata w) (getVideoTranscript w.transcriptItems)
        b.additional_prompt (jsOr b.model "gemini-1.5-flash")
        w.localeNum w.localeDate) = Except.ok raw →
      serverSummarize b now = ⟨200, RespBody.stub
        { success := true
        , message := "Backend is working! Video analysis will be added next."
        , video_url := link
        , video_id := vid
        , model_used := jsOr b.model "gemini-1.5-flash"
        , timestamp := now }⟩ ∧
      handler "POST" (Except.ok b) w = ⟨200, RespBody.success
        (mkResult link vid (jsOr b.model "gemini-1.5-flash")
          (if containsSub (jsOr b.model "gemini-1.5-flash") "2.0"
            then cleanFormatting raw else raw)
          (effMetadata w) (getVideoTranscript w.transcriptItems) now)⟩) := by
  refine ⟨?_, ?_, ?_⟩
  · intro hfalse
    cases hl : b.youtube_link with
    | none =>
      exact ⟨by simp [serverSummarize, hl], by simp [handler, hl]⟩
    | some link =>
      have hempty : link = "" := by
        rw [hl] at hfalse
        simpa [jsTruthyStr] using hfalse
      subst hempty
      exact ⟨by simp [serverSummarize, hl], by simp [handler, hl]⟩
  · intro link hl hne hvid
    exact ⟨by simp [serverSummarize, hl, hne, hvid], by simp [handler, hl, hne, hvid]⟩
  · intro link vid raw hl hne hvid hgen
    constructor
    · simp [serverSummarize, hl, hne, hvid]
    · simp [handler, hl, hne, hvid, hgen, hnow]

/-- Witness for the amended C1 theorem at a concrete valid request. -/
theorem c1_entryPoints_amended_witness :
    serverSummarize reqW "T0" = ⟨200, RespBody.stub
      { success := true
      , message := "Backend is working! Video analysis will be added next."
      , video_url := "https://youtu.be/dQw4w9WgXcQ"
      , video_id := "dQw4w9WgXcQ"
      , model_used := jsOr reqW.model "gemini-1.5-flash"
      , timestamp := "T0" }⟩ ∧
    handler "POST" (Except.ok reqW) worldNoTr = ⟨200, RespBody.success
      (mkResult "https://youtu.be/dQw4w9WgXcQ" "dQw4w9WgXcQ"
        (jsOr reqW.model "gemini-1.5-flash")
        (if containsSub (jsOr reqW.model "gemini-1.5-flash") "2.0"
          then cleanFormatting "OUT" else "OUT")
        (effMetadata worldNoTr) (getVideoTranscript worldNoTr.transcriptItems) "T0")⟩ :=
  (c1_entryPoints_amended reqW "T0" worldNoTr rfl).2.2
    "https://youtu.be/dQw4w9WgXcQ" "dQw4w9WgXcQ" "OUT" rfl (by decide) (by decide) rfl

end YTSum
